import Mathlib

/-!
Shallow embedding of the cryptographic custody core of the pontoon
custodial signing service, together with theorems settling the
specification claims about it.

Bytes are modelled as `Nat` values (reduced `% 256` wherever the source's
`u8` arithmetic can overflow); byte strings are `List Nat`; Rust `String`
values are Lean `String`s with explicit UTF-8 encoding/decoding; fallible
Rust functions return `Except`; functions that can panic (via
`GenericArray::from_slice` length assertions) return `RResult`, whose
`panicked` constructor marks the abort.
-/

namespace Pontoon

/-! ## Basic byte-list helpers -/

/-- Bytewise xor of two byte strings, truncating to the shorter one
(matches the keystream application in CTR mode, where the keystream is
generated to at least the data length). -/
def zipXor (a b : List Nat) : List Nat :=
  List.zipWith (fun x y => x ^^^ y) a b

/-- Big-endian serialization of `x` into `n` bytes. -/
def natToBeBytes (n : Nat) (x : Nat) : List Nat :=
  (List.range n).map (fun i => (x >>> (8 * (n - 1 - i))) % 256)

/-- Big-endian value of a byte string. -/
def beBytesToNat (l : List Nat) : Nat :=
  l.foldl (fun acc b => acc * 256 + b) 0

/-- Flip bit `i` of a byte string: bit `i % 8` of byte `i / 8`. -/
def flipBit (l : List Nat) (i : Nat) : List Nat :=
  l.set (i / 8) (l.getD (i / 8) 0 ^^^ (1 <<< (i % 8)))

theorem zipXor_length (a b : List Nat) :
    (zipXor a b).length = min a.length b.length := by
  simp [zipXor]

theorem natToBeBytes_length (n x : Nat) : (natToBeBytes n x).length = n := by
  simp [natToBeBytes]

theorem natToBeBytes_lt (n x : Nat) : ∀ b ∈ natToBeBytes n x, b < 256 := by
  intro b hb
  simp only [natToBeBytes, List.mem_map] at hb
  obtain ⟨i, _, rfl⟩ := hb
  exact Nat.mod_lt _ (by norm_num)

/-- Cancelling xor: applying the same (long enough) mask twice restores
the data. -/
theorem zipXor_zipXor (a b : List Nat) (h : a.length ≤ b.length) :
    zipXor (zipXor a b) b = a := by
  induction a generalizing b with
  | nil => simp [zipXor]
  | cons x xs ih =>
    cases b with
    | nil => simp at h
    | cons y ys =>
      simp only [zipXor, List.zipWith_cons_cons]
      have hx : x ^^^ y ^^^ y = x := Nat.xor_cancel_right y x
      simp only [List.length_cons, Nat.succ_le_succ_iff] at h
      simpa [hx] using ih ys h

/-! ## base64 (crate `base64` 0.21): `STANDARD` (padded, canonical decode)
and `URL_SAFE_NO_PAD` engines, over byte strings (ASCII codes). -/

namespace B64

/-- Decode errors of the `base64` crate (`DecodeError`). -/
inductive DecodeError
  | InvalidByte (offset : Nat) (b : Nat)
  | InvalidLength
  | InvalidLastSymbol (offset : Nat) (b : Nat)
  | InvalidPadding
deriving DecidableEq, Repr

/-- The `STANDARD` alphabet `A-Z a-z 0-9 + /` as ASCII codes. -/
def stdChars : List Nat :=
  [65, 66, 67, 68, 69, 70, 71, 72, 73, 74, 75, 76, 77, 78, 79, 80,
   81, 82, 83, 84, 85, 86, 87, 88, 89, 90,
   97, 98, 99, 100, 101, 102, 103, 104, 105, 106, 107, 108, 109, 110,
   111, 112, 113, 114, 115, 116, 117, 118, 119, 120, 121, 122,
   48, 49, 50, 51, 52, 53, 54, 55, 56, 57, 43, 47]

/-- The `URL_SAFE` alphabet `A-Z a-z 0-9 - _` as ASCII codes. -/
def urlChars : List Nat :=
  [65, 66, 67, 68, 69, 70, 71, 72, 73, 74, 75, 76, 77, 78, 79, 80,
   81, 82, 83, 84, 85, 86, 87, 88, 89, 90,
   97, 98, 99, 100, 101, 102, 103, 104, 105, 106, 107, 108, 109, 110,
   111, 112, 113, 114, 115, 116, 117, 118, 119, 120, 121, 122,
   48, 49, 50, 51, 52, 53, 54, 55, 56, 57, 45, 95]

/-- 6-bit value → alphabet byte. -/
def encChar (table : List Nat) (v : Nat) : Nat := table.getD v 0

/-- Alphabet byte → 6-bit value (`none` on a byte outside the alphabet). -/
def decChar (table : List Nat) (b : Nat) : Option Nat :=
  let i := table.indexOf b
  if i < 64 then some i else none

/-- Encode full 3-byte groups into 4 alphabet bytes; a trailing group of 1
or 2 bytes becomes 2 or 3 alphabet bytes plus, in the padded engine, `=`
bytes (61). -/
def encodeAux (table : List Nat) (pad : Bool) : List Nat → List Nat
  | [] => []
  | [b1] =>
    [encChar table (b1 / 4), encChar table (b1 % 4 * 16)] ++
      (if pad then [61, 61] else [])
  | [b1, b2] =>
    [encChar table (b1 / 4), encChar table (b1 % 4 * 16 + b2 / 16),
     encChar table (b2 % 16 * 4)] ++ (if pad then [61] else [])
  | b1 :: b2 :: b3 :: rest =>
    encChar table (b1 / 4) :: encChar table (b1 % 4 * 16 + b2 / 16) ::
      encChar table (b2 % 16 * 4 + b3 / 64) :: encChar table (b3 % 64) ::
      encodeAux table pad rest

/-- `STANDARD.encode`: padded standard-alphabet base64. -/
def encodeStd (bytes : List Nat) : List Nat := encodeAux stdChars true bytes

/-- `URL_SAFE_NO_PAD.encode`. -/
def encodeUrl (bytes : List Nat) : List Nat := encodeAux urlChars false bytes

/-- Decode the final 4-byte block of the padded engine (canonical padding
required, trailing bits must be zero). -/
def decodeLastStd (p c1 c2 c3 c4 : Nat) : Except DecodeError (List Nat) :=
  match decChar stdChars c1 with
  | none => .error (.InvalidByte p c1)
  | some v1 =>
    match decChar stdChars c2 with
    | none => .error (.InvalidByte (p + 1) c2)
    | some v2 =>
      if c3 = 61 then
        if c4 = 61 then
          if v2 % 16 = 0 then .ok [v1 * 4 + v2 / 16]
          else .error (.InvalidLastSymbol (p + 1) c2)
        else .error (.InvalidByte (p + 3) c4)
      else
        match decChar stdChars c3 with
        | none => .error (.InvalidByte (p + 2) c3)
        | some v3 =>
          if c4 = 61 then
            if v3 % 4 = 0 then .ok [v1 * 4 + v2 / 16, v2 % 16 * 16 + v3 / 4]
            else .error (.InvalidLastSymbol (p + 2) c3)
          else
            match decChar stdChars c4 with
            | none => .error (.InvalidByte (p + 3) c4)
            | some v4 =>
              .ok [v1 * 4 + v2 / 16, v2 % 16 * 16 + v3 / 4, v3 % 4 * 64 + v4]

/-- `STANDARD.decode` (canonical: padding required, no trailing bits). -/
def decodeStdAux (p : Nat) : List Nat → Except DecodeError (List Nat)
  | [] => .ok []
  | [_] => .error .InvalidLength
  | [_, _] => .error .InvalidPadding
  | [_, _, _] => .error .InvalidPadding
  | c1 :: c2 :: c3 :: c4 :: rest =>
    if rest.isEmpty then decodeLastStd p c1 c2 c3 c4
    else
      match decChar stdChars c1 with
      | none => .error (.InvalidByte p c1)
      | some v1 =>
        match decChar stdChars c2 with
        | none => .error (.InvalidByte (p + 1) c2)
        | some v2 =>
          match decChar stdChars c3 with
          | none => .error (.InvalidByte (p + 2) c3)
          | some v3 =>
            match decChar stdChars c4 with
            | none => .error (.InvalidByte (p + 3) c4)
            | some v4 =>
              match decodeStdAux (p + 4) rest with
              | .error e => .error e
              | .ok tail =>
                .ok ((v1 * 4 + v2 / 16) :: (v2 % 16 * 16 + v3 / 4) ::
                     (v3 % 4 * 64 + v4) :: tail)

def decodeStd (input : List Nat) : Except DecodeError (List Nat) :=
  decodeStdAux 0 input

/-- `URL_SAFE_NO_PAD.decode` (canonical: no padding accepted, no trailing
bits). -/
def decodeUrlAux (p : Nat) : List Nat → Except DecodeError (List Nat)
  | [] => .ok []
  | [_] => .error .InvalidLength
  | [c1, c2] =>
    match decChar urlChars c1 with
    | none => .error (.InvalidByte p c1)
    | some v1 =>
      match decChar urlChars c2 with
      | none => .error (.InvalidByte (p + 1) c2)
      | some v2 =>
        if v2 % 16 = 0 then .ok [v1 * 4 + v2 / 16]
        else .error (.InvalidLastSymbol (p + 1) c2)
  | [c1, c2, c3] =>
    match decChar urlChars c1 with
    | none => .error (.InvalidByte p c1)
    | some v1 =>
      match decChar urlChars c2 with
      | none => .error (.InvalidByte (p + 1) c2)
      | some v2 =>
        match decChar urlChars c3 with
        | none => .error (.InvalidByte (p + 2) c3)
        | some v3 =>
          if v3 % 4 = 0 then .ok [v1 * 4 + v2 / 16, v2 % 16 * 16 + v3 / 4]
          else .error (.InvalidLastSymbol (p + 2) c3)
  | c1 :: c2 :: c3 :: c4 :: rest =>
    match decChar urlChars c1 with
    | none => .error (.InvalidByte p c1)
    | some v1 =>
      match decChar urlChars c2 with
      | none => .error (.InvalidByte (p + 1) c2)
      | some v2 =>
        match decChar urlChars c3 with
        | none => .error (.InvalidByte (p + 2) c3)
        | some v3 =>
          match decChar urlChars c4 with
          | none => .error (.InvalidByte (p + 3) c4)
          | some v4 =>
            match decodeUrlAux (p + 4) rest with
            | .error e => .error e
            | .ok tail =>
              .ok ((v1 * 4 + v2 / 16) :: (v2 % 16 * 16 + v3 / 4) ::
                   (v3 % 4 * 64 + v4) :: tail)

def decodeUrl (input : List Nat) : Except DecodeError (List Nat) :=
  decodeUrlAux 0 input

theorem stdChars_length : stdChars.length = 64 := by rfl

/-- Decoding an alphabet byte recovers a value below 64 that re-encodes to
the same byte. -/
theorem decChar_eq_some {table : List Nat} (hlen : table.length = 64)
    {b v : Nat} (h : decChar table b = some v) :
    v < 64 ∧ encChar table v = b := by
  unfold decChar at h
  by_cases hi : table.indexOf b < 64
  · simp only [hi, if_true] at h
    obtain rfl : table.indexOf b = v := by simpa using h
    refine ⟨hi, ?_⟩
    unfold encChar
    have hlt : table.indexOf b < table.length := by omega
    rw [List.getD_eq_getElem _ _ hlt]
    exact List.getElem_indexOf hlt
  · simp [hi] at h

set_option maxRecDepth 100000 in
theorem std_decChar_encChar : ∀ v, v < 64 →
    decChar stdChars (encChar stdChars v) = some v := by decide

set_option maxRecDepth 100000 in
theorem std_encChar_ne_pad : ∀ v, v < 64 → encChar stdChars v ≠ 61 := by
  decide

set_option maxRecDepth 100000 in
/-- Setting the top bit of any standard-alphabet byte leaves the
alphabet. -/
theorem std_decChar_flip_top : ∀ v, v < 64 →
    decChar stdChars (encChar stdChars v ^^^ (1 <<< 7)) = none := by decide

set_option maxRecDepth 100000 in
theorem url_decChar_encChar : ∀ v, v < 64 →
    decChar urlChars (encChar urlChars v) = some v := by decide

theorem encodeAux_ne_nil (table : List Nat) (pad : Bool) (l : List Nat)
    (h : l ≠ []) : encodeAux table pad l ≠ [] := by
  match l with
  | [] => exact absurd rfl h
  | [b1] => cases pad <;> simp [encodeAux]
  | [b1, b2] => cases pad <;> simp [encodeAux]
  | b1 :: b2 :: b3 :: rest => simp [encodeAux]

/-- `STANDARD` round-trip: decoding an encoded byte string succeeds and
recovers the bytes (at any offset). -/
theorem decodeStdAux_encodeStd (bytes : List Nat) :
    (∀ b ∈ bytes, b < 256) → ∀ p, decodeStdAux p (encodeStd bytes) = .ok bytes :=
  match bytes with
  | [] => by intro _ p; simp [encodeStd, encodeAux, decodeStdAux]
  | [b1] => by
    intro hb p
    have h1 : b1 < 256 := hb _ (by simp)
    have e1 := std_decChar_encChar (b1 / 4) (by omega)
    have e2 := std_decChar_encChar (b1 % 4 * 16) (by omega)
    simp only [encodeStd, encodeAux, List.cons_append, List.nil_append,
      if_true, List.singleton_append, decodeStdAux, List.isEmpty_nil,
      decodeLastStd, e1, e2]
    have hz : b1 % 4 * 16 % 16 = 0 := by omega
    simp only [hz, if_true, if_pos rfl]
    congr 2
    omega
  | [b1, b2] => by
    intro hb p
    have h1 : b1 < 256 := hb _ (by simp)
    have h2 : b2 < 256 := hb _ (by simp)
    have e1 := std_decChar_encChar (b1 / 4) (by omega)
    have e2 := std_decChar_encChar (b1 % 4 * 16 + b2 / 16) (by omega)
    have e3 := std_decChar_encChar (b2 % 16 * 4) (by omega)
    have n3 := std_encChar_ne_pad (b2 % 16 * 4) (by omega)
    simp only [encodeStd, encodeAux, List.cons_append, List.nil_append,
      if_true, List.singleton_append, decodeStdAux, List.isEmpty_nil,
      decodeLastStd, e1, e2, e3, if_neg n3, if_pos rfl]
    have hz : b2 % 16 * 4 % 4 = 0 := by omega
    simp only [hz, if_true]
    congr 1
    have r1 : b1 / 4 * 4 + (b1 % 4 * 16 + b2 / 16) / 16 = b1 := by omega
    have r2 : (b1 % 4 * 16 + b2 / 16) % 16 * 16 + b2 % 16 * 4 / 4 = b2 := by
      omega
    rw [r1, r2]
  | b1 :: b2 :: b3 :: rest => by
    intro hb p
    have ih := decodeStdAux_encodeStd rest
    have h1 : b1 < 256 := hb _ (by simp)
    have h2 : b2 < 256 := hb _ (by simp)
    have h3 : b3 < 256 := hb _ (by simp)
    have e1 := std_decChar_encChar (b1 / 4) (by omega)
    have e2 := std_decChar_encChar (b1 % 4 * 16 + b2 / 16) (by omega)
    have e3 := std_decChar_encChar (b2 % 16 * 4 + b3 / 64) (by omega)
    have e4 := std_decChar_encChar (b3 % 64) (by omega)
    have r1 : b1 / 4 * 4 + (b1 % 4 * 16 + b2 / 16) / 16 = b1 := by omega
    have r2 : (b1 % 4 * 16 + b2 / 16) % 16 * 16 +
        (b2 % 16 * 4 + b3 / 64) / 4 = b2 := by omega
    have r3 : (b2 % 16 * 4 + b3 / 64) % 4 * 64 + b3 % 64 = b3 := by omega
    have hrest : ∀ b ∈ rest, b < 256 := fun b hbm => hb _ (by simp [hbm])
    by_cases hr : rest = []
    · subst hr
      have n3 := std_encChar_ne_pad (b2 % 16 * 4 + b3 / 64) (by omega)
      have n4 := std_encChar_ne_pad (b3 % 64) (by omega)
      simp only [encodeStd, encodeAux, decodeStdAux, List.isEmpty_nil,
        if_true, decodeLastStd, e1, e2, e3, e4, if_neg n3, if_neg n4]
      rw [r1, r2, r3]
    · have hne := encodeAux_ne_nil stdChars true rest hr
      have hni : (encodeAux stdChars true rest).isEmpty = false := by
        simpa [List.isEmpty_iff] using hne
      have ihr := ih hrest (p + 4)
      simp only [encodeStd] at ihr
      simp only [encodeStd, encodeAux, decodeStdAux, hni, Bool.false_eq_true,
        if_false, e1, e2, e3, e4, ihr]
      rw [r1, r2, r3]

theorem decodeStd_encodeStd (bytes : List Nat) (hb : ∀ b ∈ bytes, b < 256) :
    decodeStd (encodeStd bytes) = .ok bytes :=
  decodeStdAux_encodeStd bytes hb 0

/-- Canonicity of the final padded block: a successful decode means the
four bytes are exactly the canonical encoding of the result. -/
theorem decodeLastStd_ok {p c1 c2 c3 c4 : Nat} {bytes : List Nat}
    (h : decodeLastStd p c1 c2 c3 c4 = .ok bytes) :
    encodeStd bytes = [c1, c2, c3, c4] := by
  unfold decodeLastStd at h
  cases hd1 : decChar stdChars c1 with
  | none => simp [hd1] at h
  | some v1 =>
  obtain ⟨hv1, he1⟩ := decChar_eq_some stdChars_length hd1
  cases hd2 : decChar stdChars c2 with
  | none => simp [hd1, hd2] at h
  | some v2 =>
  obtain ⟨hv2, he2⟩ := decChar_eq_some stdChars_length hd2
  simp only [hd1, hd2] at h
  by_cases h3 : c3 = 61
  · by_cases h4 : c4 = 61
    · by_cases hz : v2 % 16 = 0
      · simp only [h3, h4, hz, if_true, if_pos rfl, Except.ok.injEq] at h
        subst h
        have r1 : (v1 * 4 + v2 / 16) / 4 = v1 := by omega
        have r2 : (v1 * 4 + v2 / 16) % 4 * 16 = v2 := by omega
        simp [encodeStd, encodeAux, r1, r2, he1, he2, h3, h4]
      · simp [h3, h4, hz] at h
    · simp [h3, h4] at h
  · cases hd3 : decChar stdChars c3 with
    | none => simp [h3, hd3] at h
    | some v3 =>
    obtain ⟨hv3, he3⟩ := decChar_eq_some stdChars_length hd3
    simp only [h3, if_false, hd3] at h
    by_cases h4 : c4 = 61
    · by_cases hz : v3 % 4 = 0
      · simp only [h4, hz, if_true, if_pos rfl, Except.ok.injEq] at h
        subst h
        have r1 : (v1 * 4 + v2 / 16) / 4 = v1 := by omega
        have r2 : (v1 * 4 + v2 / 16) % 4 * 16 +
            (v2 % 16 * 16 + v3 / 4) / 16 = v2 := by omega
        have r3 : (v2 % 16 * 16 + v3 / 4) % 16 * 4 = v3 := by omega
        simp [encodeStd, encodeAux, r1, r2, r3, he1, he2, he3, h4]
      · simp [h4, hz] at h
    · cases hd4 : decChar stdChars c4 with
      | none => simp [h4, hd4] at h
      | some v4 =>
      obtain ⟨hv4, he4⟩ := decChar_eq_some stdChars_length hd4
      simp only [h4, if_false, hd4, Except.ok.injEq] at h
      subst h
      have r1 : (v1 * 4 + v2 / 16) / 4 = v1 := by omega
      have r2 : (v1 * 4 + v2 / 16) % 4 * 16 +
          (v2 % 16 * 16 + v3 / 4) / 16 = v2 := by omega
      have r3 : (v2 % 16 * 16 + v3 / 4) % 16 * 4 +
          (v3 % 4 * 64 + v4) / 64 = v3 := by omega
      have r4 : (v3 % 4 * 64 + v4) % 64 = v4 := by omega
      simp [encodeStd, encodeAux, r1, r2, r3, r4, he1, he2, he3, he4]

/-- Canonicity of `STANDARD.decode`: a successful decode identifies the
input as the canonical encoding of the decoded bytes. -/
theorem encodeStd_of_decodeStdAux (input : List Nat) :
    ∀ p bytes, decodeStdAux p input = .ok bytes → encodeStd bytes = input :=
  match input with
  | [] => by
    intro p bytes h
    simp only [decodeStdAux, Except.ok.injEq] at h
    subst h
    simp [encodeStd, encodeAux]
  | [_] => by intro p bytes h; simp [decodeStdAux] at h
  | [_, _] => by intro p bytes h; simp [decodeStdAux] at h
  | [_, _, _] => by intro p bytes h; simp [decodeStdAux] at h
  | c1 :: c2 :: c3 :: c4 :: rest => by
    intro p bytes h
    by_cases hr : rest.isEmpty
    · obtain rfl : rest = [] := by simpa [List.isEmpty_iff] using hr
      simp only [decodeStdAux, List.isEmpty_nil, if_true] at h
      exact decodeLastStd_ok h
    · have ih := encodeStd_of_decodeStdAux rest
      simp only [decodeStdAux, hr, if_false] at h
      cases hd1 : decChar stdChars c1 with
      | none => simp [hd1] at h
      | some v1 =>
      obtain ⟨hv1, he1⟩ := decChar_eq_some stdChars_length hd1
      cases hd2 : decChar stdChars c2 with
      | none => simp [hd1, hd2] at h
      | some v2 =>
      obtain ⟨hv2, he2⟩ := decChar_eq_some stdChars_length hd2
      cases hd3 : decChar stdChars c3 with
      | none => simp [hd1, hd2, hd3] at h
      | some v3 =>
      obtain ⟨hv3, he3⟩ := decChar_eq_some stdChars_length hd3
      cases hd4 : decChar stdChars c4 with
      | none => simp [hd1, hd2, hd3, hd4] at h
      | some v4 =>
      obtain ⟨hv4, he4⟩ := decChar_eq_some stdChars_length hd4
      simp only [hd1, hd2, hd3, hd4] at h
      cases ht : decodeStdAux (p + 4) rest with
      | error e => simp [ht] at h
      | ok tail =>
      simp only [Bool.false_eq_true, if_false, ht, Except.ok.injEq] at h
      subst h
      have ihr := ih (p + 4) tail ht
      have r1 : (v1 * 4 + v2 / 16) / 4 = v1 := by omega
      have r2 : (v1 * 4 + v2 / 16) % 4 * 16 +
          (v2 % 16 * 16 + v3 / 4) / 16 = v2 := by omega
      have r3 : (v2 % 16 * 16 + v3 / 4) % 16 * 4 +
          (v3 % 4 * 64 + v4) / 64 = v3 := by omega
      have r4 : (v3 % 4 * 64 + v4) % 64 = v4 := by omega
      simp only [encodeStd, encodeAux, r1, r2, r3, r4, he1, he2, he3, he4,
        List.cons.injEq]
      exact ⟨trivial, trivial, trivial, trivial, ihr⟩

theorem encodeStd_of_decodeStd {input bytes : List Nat}
    (h : decodeStd input = .ok bytes) : encodeStd bytes = input :=
  encodeStd_of_decodeStdAux input 0 bytes h

end B64

/-! ## UTF-8 (Rust `str::as_bytes` / `String::from_utf8`) -/

/-- UTF-8 encoding of one scalar value. -/
def utf8EncodeChar (c : Char) : List Nat :=
  if c.toNat < 128 then [c.toNat]
  else if c.toNat < 2048 then [192 + c.toNat / 64, 128 + c.toNat % 64]
  else if c.toNat < 65536 then
    [224 + c.toNat / 4096, 128 + c.toNat / 64 % 64, 128 + c.toNat % 64]
  else
    [240 + c.toNat / 262144, 128 + c.toNat / 4096 % 64,
     128 + c.toNat / 64 % 64, 128 + c.toNat % 64]

def utf8EncodeChars : List Char → List Nat
  | [] => []
  | c :: cs => utf8EncodeChar c ++ utf8EncodeChars cs

/-- The UTF-8 bytes of a Rust `String` / `str` (`as_bytes`). -/
def utf8Encode (s : String) : List Nat :=
  utf8EncodeChars s.data

/-- A UTF-8 continuation byte. -/
def contByte (b : Nat) : Prop := 128 ≤ b ∧ b < 192

instance (b : Nat) : Decidable (contByte b) := by
  unfold contByte; infer_instance

/-- UTF-8 validation/decoding (the check behind Rust `String::from_utf8`):
rejects overlong forms, surrogates and out-of-range values. Fuel decreases
once per decoded character; one character consumes at least one byte, so
`bytes.length` fuel always suffices. -/
def utf8DecodeAux : Nat → List Nat → Option (List Char)
  | _, [] => some []
  | 0, _ :: _ => none
  | fuel + 1, b :: rest =>
    if b < 128 then
      (utf8DecodeAux fuel rest).map (fun cs => Char.ofNat b :: cs)
    else if b < 194 then none
    else if b < 224 then
      match rest with
      | b2 :: rest2 =>
        if contByte b2 then
          (utf8DecodeAux fuel rest2).map
            (fun cs => Char.ofNat ((b - 192) * 64 + (b2 - 128)) :: cs)
        else none
      | [] => none
    else if b < 240 then
      match rest with
      | b2 :: b3 :: rest3 =>
        if contByte b2 ∧ contByte b3 then
          let v := (b - 224) * 4096 + (b2 - 128) * 64 + (b3 - 128)
          if 2048 ≤ v ∧ ¬(55296 ≤ v ∧ v < 57344) then
            (utf8DecodeAux fuel rest3).map (fun cs => Char.ofNat v :: cs)
          else none
        else none
      | _ => none
    else if b < 245 then
      match rest with
      | b2 :: b3 :: b4 :: rest4 =>
        if contByte b2 ∧ contByte b3 ∧ contByte b4 then
          let v := (b - 240) * 262144 + (b2 - 128) * 4096 +
                   (b3 - 128) * 64 + (b4 - 128)
          if 65536 ≤ v ∧ v < 1114112 then
            (utf8DecodeAux fuel rest4).map (fun cs => Char.ofNat v :: cs)
          else none
        else none
      | _ => none
    else none

def utf8Decode (bytes : List Nat) : Option (List Char) :=
  utf8DecodeAux bytes.length bytes

/-- `String::from_utf8(bytes).ok()`. -/
def utf8DecodeStr (bytes : List Nat) : Option String :=
  (utf8Decode bytes).map (fun cs => String.mk cs)

theorem utf8EncodeChar_length_pos (c : Char) : 1 ≤ (utf8EncodeChar c).length := by
  unfold utf8EncodeChar
  split_ifs <;> simp

theorem length_le_utf8EncodeChars (cs : List Char) :
    cs.length ≤ (utf8EncodeChars cs).length := by
  induction cs with
  | nil => simp [utf8EncodeChars]
  | cons c cs ih =>
    have := utf8EncodeChar_length_pos c
    simp only [utf8EncodeChars, List.length_append, List.length_cons]
    omega

/-- Decoding steps over one encoded character. -/
theorem utf8DecodeAux_encodeChar (c : Char) (rest : List Nat) (fuel : Nat) :
    utf8DecodeAux (fuel + 1) (utf8EncodeChar c ++ rest) =
      (utf8DecodeAux fuel rest).map (fun cs => c :: cs) := by
  have hval : c.toNat.isValidChar := c.valid
  have hv : c.toNat < 55296 ∨ (57343 < c.toNat ∧ c.toNat < 1114112) := hval
  set v := c.toNat with hvdef
  have hvc : Char.ofNat v = c := by rw [hvdef]; exact Char.ofNat_toNat c
  by_cases h1 : v < 128
  · have he : utf8EncodeChar c = [v] := by
      simp [utf8EncodeChar, ← hvdef, h1]
    simp [he, utf8DecodeAux, h1, hvc]
  · by_cases h2 : v < 2048
    · have he : utf8EncodeChar c = [192 + v / 64, 128 + v % 64] := by
        simp [utf8EncodeChar, h1, h2]
      have n1 : ¬(192 + v / 64 < 128) := by omega
      have n2 : ¬(192 + v / 64 < 194) := by omega
      have n3 : 192 + v / 64 < 224 := by omega
      have hc : contByte (128 + v % 64) := by unfold contByte; omega
      have hrec : v / 64 * 64 + v % 64 = v := by omega
      simp [he, utf8DecodeAux, n1, n2, n3, hc, hrec, hvc]
    · by_cases h3 : v < 65536
      · have he : utf8EncodeChar c =
            [224 + v / 4096, 128 + v / 64 % 64, 128 + v % 64] := by
          simp [utf8EncodeChar, h1, h2, h3]
        have n1 : ¬(224 + v / 4096 < 128) := by omega
        have n2 : ¬(224 + v / 4096 < 194) := by omega
        have n3 : ¬(224 + v / 4096 < 224) := by omega
        have n4 : 224 + v / 4096 < 240 := by omega
        have hc2 : contByte (128 + v / 64 % 64) := by unfold contByte; omega
        have hc3 : contByte (128 + v % 64) := by unfold contByte; omega
        have hrec : v / 4096 * 4096 + v / 64 % 64 * 64 + v % 64 = v := by
          omega
        have hrange : 2048 ≤ v ∧ ¬(55296 ≤ v ∧ v < 57344) := by omega
        simp [he, utf8DecodeAux, n1, n2, n3, n4, hc2, hc3, hrec, hrange, hvc]
      · have h4 : v < 1114112 := by omega
        have he : utf8EncodeChar c = [240 + v / 262144, 128 + v / 4096 % 64,
            128 + v / 64 % 64, 128 + v % 64] := by
          simp [utf8EncodeChar, ← hvdef, h1, h2, h3]
        have n1 : ¬(240 + v / 262144 < 128) := by omega
        have n2 : ¬(240 + v / 262144 < 194) := by omega
        have n3 : ¬(240 + v / 262144 < 224) := by omega
        have n4 : ¬(240 + v / 262144 < 240) := by omega
        have n5 : 240 + v / 262144 < 245 := by omega
        have hc2 : contByte (128 + v / 4096 % 64) := by unfold contByte; omega
        have hc3 : contByte (128 + v / 64 % 64) := by unfold contByte; omega
        have hc4 : contByte (128 + v % 64) := by unfold contByte; omega
        have hrec : v / 262144 * 262144 + v / 4096 % 64 * 4096 +
            v / 64 % 64 * 64 + v % 64 = v := by omega
        have hrange : 65536 ≤ v ∧ v < 1114112 := by omega
        simp [he, utf8DecodeAux, n1, n2, n3, n4, n5, hc2, hc3, hc4, hrec,
          hrange, hvc]

theorem utf8DecodeAux_encodeChars (cs : List Char) :
    ∀ fuel, cs.length ≤ fuel →
      utf8DecodeAux fuel (utf8EncodeChars cs) = some cs := by
  induction cs with
  | nil => intro fuel _; simp [utf8EncodeChars, utf8DecodeAux]
  | cons c cs ih =>
    intro fuel hf
    match fuel, hf with
    | f + 1, hf =>
      rw [utf8EncodeChars, utf8DecodeAux_encodeChar, ih f (by simpa using hf)]
      rfl

/-- UTF-8 round-trip: validating/decoding the bytes of a string yields the
string back. -/
theorem utf8DecodeStr_encode (s : String) :
    utf8DecodeStr (utf8Encode s) = some s := by
  unfold utf8DecodeStr utf8Decode utf8Encode
  rw [utf8DecodeAux_encodeChars s.data _ (length_le_utf8EncodeChars s.data)]
  rfl

/-! ## SHA-256 and SHA-1 (crates `sha2` / `sha1`, used by `hmac` and
`uuid::new_v5`), with the standard constants derived from the integer
square/cube roots of the first primes. -/

namespace Hash

/-- 32-bit right rotation. -/
def rotr32 (n x : Nat) : Nat := ((x >>> n) ||| (x <<< (32 - n))) % 4294967296

/-- 32-bit left rotation. -/
def rotl32 (n x : Nat) : Nat := ((x <<< n) ||| (x >>> (32 - n))) % 4294967296

/-- The first 64 primes. -/
def firstPrimes : List Nat :=
  [2, 3, 5, 7, 11, 13, 17, 19, 23, 29, 31, 37, 41, 43, 47, 53,
   59, 61, 67, 71, 73, 79, 83, 89, 97, 101, 103, 107, 109, 113, 127, 131,
   137, 139, 149, 151, 157, 163, 167, 173, 179, 181, 191, 193, 197, 199,
   211, 223, 227, 229, 233, 239, 241, 251, 257, 263, 269, 271, 277, 281,
   283, 293, 307, 311]

/-- Largest `c` with `c ^ 3 ≤ x` (binary search, enough fuel for the
inputs below). -/
def cbrtAux : Nat → Nat → Nat → Nat → Nat
  | 0, lo, _, _ => lo
  | fuel + 1, lo, hi, x =>
    if lo + 1 < hi then
      let mid := (lo + hi) / 2
      if mid ^ 3 ≤ x then cbrtAux fuel mid hi x else cbrtAux fuel lo mid x
    else lo

def cbrt (x : Nat) : Nat := cbrtAux 200 0 (x + 2) x

/-- SHA-256 round constants: fractional cube roots of the first 64
primes. -/
def sha256K : List Nat := firstPrimes.map fun p => cbrt (p * 2 ^ 96) % 4294967296

/-- SHA-256 initial state: fractional square roots of the first 8
primes. -/
def sha256H0 : List Nat :=
  (firstPrimes.take 8).map fun p => Nat.sqrt (p * 2 ^ 64) % 4294967296

/-- Merkle–Damgård padding shared by SHA-1 and SHA-256: `0x80`, zeros to
56 mod 64, then the 64-bit big-endian bit length. -/
def mdPad (msg : List Nat) : List Nat :=
  msg ++ 128 :: List.replicate ((64 - (msg.length + 9) % 64) % 64) 0 ++
    natToBeBytes 8 (msg.length * 8 % 2 ^ 64)

/-- Split into 64-byte blocks (input length is a multiple of 64 after
padding). -/
def chunks64 : Nat → List Nat → List (List Nat)
  | 0, _ => []
  | _, [] => []
  | fuel + 1, l => l.take 64 :: chunks64 fuel (l.drop 64)

/-- Build the 64-word SHA-256 message schedule. -/
def sha256Schedule : Nat → List Nat → List Nat
  | 0, w => w
  | fuel + 1, w =>
    let i := w.length
    let s0 := rotr32 7 (w.getD (i - 15) 0) ^^^ rotr32 18 (w.getD (i - 15) 0) ^^^
              (w.getD (i - 15) 0 >>> 3)
    let s1 := rotr32 17 (w.getD (i - 2) 0) ^^^ rotr32 19 (w.getD (i - 2) 0) ^^^
              (w.getD (i - 2) 0 >>> 10)
    sha256Schedule fuel
      (w ++ [(w.getD (i - 16) 0 + s0 + w.getD (i - 7) 0 + s1) % 4294967296])

/-- One SHA-256 round, producing the next 8-word working state. -/
def sha256Round (w : List Nat) (t : Nat) (st : List Nat) : List Nat :=
  let a := st.getD 0 0
  let b := st.getD 1 0
  let c := st.getD 2 0
  let d := st.getD 3 0
  let e := st.getD 4 0
  let f := st.getD 5 0
  let g := st.getD 6 0
  let h := st.getD 7 0
  let bigS1 := rotr32 6 e ^^^ rotr32 11 e ^^^ rotr32 25 e
  let ch := (e &&& f) ^^^ ((4294967295 - e % 4294967296) &&& g)
  let temp1 := (h + bigS1 + ch + sha256K.getD t 0 + w.getD t 0) % 4294967296
  let bigS0 := rotr32 2 a ^^^ rotr32 13 a ^^^ rotr32 22 a
  let maj := (a &&& b) ^^^ (a &&& c) ^^^ (b &&& c)
  let temp2 := (bigS0 + maj) % 4294967296
  [(temp1 + temp2) % 4294967296, a, b, c, (d + temp1) % 4294967296, e, f, g]

def sha256Rounds (w : List Nat) : Nat → Nat → List Nat → List Nat
  | 0, _, st => st
  | fuel + 1, t, st => sha256Rounds w fuel (t + 1) (sha256Round w t st)

/-- Words of a 64-byte block (big-endian). -/
def blockWords (block : List Nat) : List Nat :=
  (List.range 16).map fun i =>
    block.getD (4 * i) 0 * 16777216 + block.getD (4 * i + 1) 0 * 65536 +
    block.getD (4 * i + 2) 0 * 256 + block.getD (4 * i + 3) 0

/-- SHA-256 compression of one block into the 8-word chaining state. -/
def sha256Compress (h : List Nat) (block : List Nat) : List Nat :=
  let w := sha256Schedule 48 (blockWords block)
  let st := sha256Rounds w 64 0 h
  List.zipWith (fun a b => (a + b) % 4294967296) h st

def sha256 (msg : List Nat) : List Nat :=
  let padded := mdPad msg
  let final := (chunks64 padded.length padded).foldl sha256Compress sha256H0
  (final.map (natToBeBytes 4)).join

theorem sha256Round_length (w : List Nat) (t : Nat) (st : List Nat) :
    (sha256Round w t st).length = 8 := by
  simp [sha256Round]

theorem sha256Rounds_length (w : List Nat) (fuel t : Nat) (st : List Nat)
    (h : st.length = 8) : (sha256Rounds w fuel t st).length = 8 := by
  induction fuel generalizing t st with
  | zero => simpa [sha256Rounds] using h
  | succ f ih => simpa [sha256Rounds] using ih (t + 1) _ (sha256Round_length w t st)

theorem sha256Compress_length (h block : List Nat) (hh : h.length = 8) :
    (sha256Compress h block).length = 8 := by
  have := sha256Rounds_length (sha256Schedule 48 (blockWords block)) 64 0 h hh
  simp [sha256Compress, hh, this]

theorem sha256H0_length : sha256H0.length = 8 := by rfl

theorem foldl_sha256Compress_length (blocks : List (List Nat))
    (h : List Nat) (hh : h.length = 8) :
    (blocks.foldl sha256Compress h).length = 8 := by
  induction blocks generalizing h with
  | nil => simpa using hh
  | cons b bs ih => simpa using ih _ (sha256Compress_length h b hh)

/-- SHA-256 digests are 32 bytes. -/
theorem sha256_length (msg : List Nat) : (sha256 msg).length = 32 := by
  unfold sha256
  rw [List.length_join]
  have hlen := foldl_sha256Compress_length
    (chunks64 (mdPad msg).length (mdPad msg)) sha256H0 sha256H0_length
  generalize (chunks64 (mdPad msg).length (mdPad msg)).foldl sha256Compress
    sha256H0 = st at hlen
  match st, hlen with
  | [a, b, c, d, e, f, g, h], _ => simp [natToBeBytes_length]

/-- SHA-256 digests are byte strings. -/
theorem sha256_lt (msg : List Nat) : ∀ b ∈ sha256 msg, b < 256 := by
  unfold sha256
  intro b hb
  simp only [List.mem_join, List.mem_map] at hb
  obtain ⟨l, ⟨x, _, rfl⟩, hbl⟩ := hb
  exact natToBeBytes_lt 4 x b hbl

/-- HMAC-SHA256 (crate `hmac`): block size 64; long keys are pre-hashed;
`new_from_slice` accepts every key length. -/
def hmacSha256 (key msg : List Nat) : List Nat :=
  let k0 := if 64 < key.length then sha256 key else key
  let kp := k0 ++ List.replicate (64 - k0.length) 0
  sha256 ((kp.map (fun b => b ^^^ 92)) ++
          sha256 ((kp.map (fun b => b ^^^ 54)) ++ msg))

theorem hmacSha256_length (key msg : List Nat) :
    (hmacSha256 key msg).length = 32 := sha256_length _

theorem hmacSha256_lt (key msg : List Nat) :
    ∀ b ∈ hmacSha256 key msg, b < 256 := sha256_lt _

/-- SHA-1 (for `uuid::new_v5`). -/
def sha1H0 : List Nat :=
  [1732584193, 4023233417, 2562383102, 271733878, 3285377520]

def sha1Schedule : Nat → List Nat → List Nat
  | 0, w => w
  | fuel + 1, w =>
    let i := w.length
    sha1Schedule fuel
      (w ++ [rotl32 1 (w.getD (i - 3) 0 ^^^ w.getD (i - 8) 0 ^^^
                       w.getD (i - 14) 0 ^^^ w.getD (i - 16) 0)])

def sha1F (t b c d : Nat) : Nat :=
  if t < 20 then (b &&& c) ^^^ ((4294967295 - b % 4294967296) &&& d)
  else if t < 40 then b ^^^ c ^^^ d
  else if t < 60 then (b &&& c) ^^^ (b &&& d) ^^^ (c &&& d)
  else b ^^^ c ^^^ d

def sha1K (t : Nat) : Nat :=
  if t < 20 then 1518500249
  else if t < 40 then 1859775393
  else if t < 60 then 2400959708
  else 3395469782

def sha1Round (w : List Nat) (t : Nat) (st : List Nat) : List Nat :=
  let a := st.getD 0 0
  let b := st.getD 1 0
  let c := st.getD 2 0
  let d := st.getD 3 0
  let e := st.getD 4 0
  let temp := (rotl32 5 a + sha1F t b c d + e + sha1K t + w.getD t 0) %
    4294967296
  [temp, a, rotl32 30 b, c, d]

def sha1Rounds (w : List Nat) : Nat → Nat → List Nat → List Nat
  | 0, _, st => st
  | fuel + 1, t, st => sha1Rounds w fuel (t + 1) (sha1Round w t st)

def sha1Compress (h : List Nat) (block : List Nat) : List Nat :=
  let w := sha1Schedule 64 (blockWords block)
  let st := sha1Rounds w 80 0 h
  List.zipWith (fun a b => (a + b) % 4294967296) h st

def sha1 (msg : List Nat) : List Nat :=
  let padded := mdPad msg
  let final := (chunks64 padded.length padded).foldl sha1Compress sha1H0
  (final.map (natToBeBytes 4)).join

end Hash

/-! ## AES-256-GCM (crate `aes-gcm`): the AES block cipher with the S-box
computed from the GF(2^8) inverse and affine map, and the GCM mode of
operation (96-bit nonces, 128-bit tags). -/

namespace Aes

/-- Multiplication in GF(2^8) modulo `x^8 + x^4 + x^3 + x + 1` (0x11B). -/
def gf8MulAux : Nat → Nat → Nat → Nat → Nat
  | 0, _, _, acc => acc
  | fuel + 1, a, b, acc =>
    let acc2 := if b % 2 = 1 then acc ^^^ a else acc
    let a2 := if 256 ≤ a * 2 then a * 2 ^^^ 283 else a * 2
    gf8MulAux fuel a2 (b / 2) acc2

def gf8Mul (a b : Nat) : Nat := gf8MulAux 8 (a % 256) (b % 256) 0

def gf8Sq (a : Nat) : Nat := gf8Mul a a

/-- `a ^ 254`, the multiplicative inverse for `a ≠ 0` (and `0` at `0`). -/
def gf8Inv (a : Nat) : Nat :=
  let a2 := gf8Sq a
  let a4 := gf8Sq a2
  let a8 := gf8Sq a4
  let a16 := gf8Sq a8
  let a32 := gf8Sq a16
  let a64 := gf8Sq a32
  let a128 := gf8Sq a64
  gf8Mul a128 (gf8Mul a64 (gf8Mul a32 (gf8Mul a16 (gf8Mul a8 (gf8Mul a4 a2)))))

def rotl8 (n x : Nat) : Nat := ((x <<< n) ||| (x >>> (8 - n))) % 256

/-- The AES S-box: affine map of the GF(2^8) inverse. -/
def sbox (x : Nat) : Nat :=
  let b := gf8Inv (x % 256)
  b ^^^ rotl8 1 b ^^^ rotl8 2 b ^^^ rotl8 3 b ^^^ rotl8 4 b ^^^ 99

/-- Big-endian 32-bit words of a byte string. -/
def bytesToWords (n : Nat) (bytes : List Nat) : List Nat :=
  (List.range n).map fun i =>
    bytes.getD (4 * i) 0 * 16777216 + bytes.getD (4 * i + 1) 0 * 65536 +
    bytes.getD (4 * i + 2) 0 * 256 + bytes.getD (4 * i + 3) 0

def subWord (w : Nat) : Nat :=
  sbox (w >>> 24 % 256) * 16777216 + sbox (w >>> 16 % 256) * 65536 +
  sbox (w >>> 8 % 256) * 256 + sbox (w % 256)

def rotWord (w : Nat) : Nat := w % 16777216 * 256 + w >>> 24 % 256

def xtime (p : Nat) : Nat := if 256 ≤ p * 2 then p * 2 ^^^ 283 else p * 2

/-- Round constants `x^(i-1)` in GF(2^8). -/
def rcon : Nat → Nat
  | 0 => 141
  | i + 1 => Nat.rec 1 (fun _ acc => xtime acc) i

/-- AES-256 key expansion to 60 32-bit words. -/
def expandKeyAux : Nat → List Nat → List Nat
  | 0, ws => ws
  | fuel + 1, ws =>
    let i := ws.length
    let prev := ws.getD (i - 1) 0
    let t :=
      if i % 8 = 0 then subWord (rotWord prev) ^^^ (rcon (i / 8) <<< 24)
      else if i % 8 = 4 then subWord prev
      else prev
    expandKeyAux fuel (ws ++ [ws.getD (i - 8) 0 ^^^ t])

def expandKey (key : List Nat) : List Nat :=
  expandKeyAux 52 (bytesToWords 8 key)

/-- Bytes of round key `r` (always 16 by construction). -/
def roundKey (ws : List Nat) (r : Nat) : List Nat :=
  (List.range 16).map fun i => ws.getD (4 * r + i / 4) 0 >>> (8 * (3 - i % 4)) % 256

def subBytes (st : List Nat) : List Nat := st.map sbox

def shiftRows (st : List Nat) : List Nat :=
  [st.getD 0 0, st.getD 5 0, st.getD 10 0, st.getD 15 0,
   st.getD 4 0, st.getD 9 0, st.getD 14 0, st.getD 3 0,
   st.getD 8 0, st.getD 13 0, st.getD 2 0, st.getD 7 0,
   st.getD 12 0, st.getD 1 0, st.getD 6 0, st.getD 11 0]

def mixCol (a0 a1 a2 a3 : Nat) : List Nat :=
  [gf8Mul 2 a0 ^^^ gf8Mul 3 a1 ^^^ a2 ^^^ a3,
   a0 ^^^ gf8Mul 2 a1 ^^^ gf8Mul 3 a2 ^^^ a3,
   a0 ^^^ a1 ^^^ gf8Mul 2 a2 ^^^ gf8Mul 3 a3,
   gf8Mul 3 a0 ^^^ a1 ^^^ a2 ^^^ gf8Mul 2 a3]

def mixColumns (st : List Nat) : List Nat :=
  mixCol (st.getD 0 0) (st.getD 1 0) (st.getD 2 0) (st.getD 3 0) ++
  mixCol (st.getD 4 0) (st.getD 5 0) (st.getD 6 0) (st.getD 7 0) ++
  mixCol (st.getD 8 0) (st.getD 9 0) (st.getD 10 0) (st.getD 11 0) ++
  mixCol (st.getD 12 0) (st.getD 13 0) (st.getD 14 0) (st.getD 15 0)

def addRoundKey (st rk : List Nat) : List Nat := zipXor st rk

def aesRoundsAux (ws : List Nat) : Nat → Nat → List Nat → List Nat
  | 0, _, st => st
  | fuel + 1, r, st =>
    aesRoundsAux ws fuel (r + 1)
      (addRoundKey (mixColumns (shiftRows (subBytes st))) (roundKey ws r))

/-- AES-256 block encryption (14 rounds). -/
def aesEncryptBlock (key block : List Nat) : List Nat :=
  let ws := expandKey key
  let st0 := addRoundKey block (roundKey ws 0)
  let stN := aesRoundsAux ws 13 1 st0
  addRoundKey (shiftRows (subBytes stN)) (roundKey ws 14)

theorem roundKey_length (ws : List Nat) (r : Nat) : (roundKey ws r).length = 16 := by
  simp [roundKey]

theorem shiftRows_length (st : List Nat) : (shiftRows st).length = 16 := by
  simp [shiftRows]

/-- AES blocks are 16 bytes whatever the input shapes. -/
theorem aesEncryptBlock_length (key block : List Nat) :
    (aesEncryptBlock key block).length = 16 := by
  simp [aesEncryptBlock, addRoundKey, zipXor_length, shiftRows_length,
    roundKey_length]

/-- 32-bit increment of the last four counter bytes. -/
def inc32 (ctr : List Nat) : List Nat :=
  ctr.take 12 ++ natToBeBytes 4 ((beBytesToNat (ctr.drop 12) + 1) % 4294967296)

/-- CTR keystream of `n` 16-byte blocks. -/
def keystream (key ctr : List Nat) : Nat → List Nat
  | 0 => []
  | n + 1 => aesEncryptBlock key ctr ++ keystream key (inc32 ctr) n

/-- CTR encryption/decryption: xor with the keystream, truncated to the
data length. -/
def ctrXor (key ctr data : List Nat) : List Nat :=
  zipXor data (keystream key ctr ((data.length + 15) / 16))

/-- Multiplication in GF(2^128) with the GCM reduction polynomial. -/
def gf128MulAux : Nat → Nat → Nat → Nat → Nat
  | 0, _, _, z => z
  | fuel + 1, x, v, z =>
    let z2 := if x >>> 127 % 2 = 1 then z ^^^ v else z
    let v2 := if v % 2 = 1 then v >>> 1 ^^^ (225 <<< 120) else v >>> 1
    gf128MulAux fuel (x <<< 1 % 2 ^ 128) v2 z2

def gf128Mul (x y : Nat) : Nat := gf128MulAux 128 (x % 2 ^ 128) (y % 2 ^ 128) 0

/-- 16-byte blocks, the last zero-padded. -/
def chunks16 : Nat → List Nat → List (List Nat)
  | 0, _ => []
  | _, [] => []
  | fuel + 1, l =>
    (l.take 16 ++ List.replicate (16 - (l.take 16).length) 0) ::
      chunks16 fuel (l.drop 16)

def ghashBlocks (h : Nat) (blocks : List (List Nat)) : Nat :=
  blocks.foldl (fun y b => gf128Mul (y ^^^ beBytesToNat b) h) 0

/-- The GCM authentication tag over the ciphertext (no associated
data). -/
def gcmTag (key nonce ct : List Nat) : List Nat :=
  let h := beBytesToNat (aesEncryptBlock key (List.replicate 16 0))
  let j0 := nonce ++ [0, 0, 0, 1]
  let lenBlock := natToBeBytes 8 0 ++ natToBeBytes 8 (ct.length * 8 % 2 ^ 64)
  let s := ghashBlocks h (chunks16 ct.length ct ++ [lenBlock])
  zipXor (natToBeBytes 16 s) (aesEncryptBlock key j0)

/-- `Aes256Gcm::encrypt` payload: ciphertext with the 16-byte tag
appended. -/
def gcmEncrypt (key nonce pt : List Nat) : List Nat :=
  let ct := ctrXor key (inc32 (nonce ++ [0, 0, 0, 1])) pt
  ct ++ gcmTag key nonce ct

/-- `Aes256Gcm::decrypt`: split off the tag, verify it, then CTR-decrypt
(`aes_gcm::Error` is an opaque unit struct). -/
def gcmDecrypt (key nonce data : List Nat) : Except Unit (List Nat) :=
  if data.length < 16 then .error ()
  else
    let ct := data.take (data.length - 16)
    let tag := data.drop (data.length - 16)
    if tag = gcmTag key nonce ct then
      .ok (ctrXor key (inc32 (nonce ++ [0, 0, 0, 1])) ct)
    else .error ()

theorem keystream_length (key ctr : List Nat) (n : Nat) :
    (keystream key ctr n).length = 16 * n := by
  induction n generalizing ctr with
  | zero => simp [keystream]
  | succ m ih =>
    simp [keystream, aesEncryptBlock_length, ih]
    omega

theorem ctrXor_length (key ctr data : List Nat) :
    (ctrXor key ctr data).length = data.length := by
  simp only [ctrXor, zipXor_length, keystream_length]
  omega

/-- CTR mode is an involution. -/
theorem ctrXor_ctrXor (key ctr data : List Nat) :
    ctrXor key ctr (ctrXor key ctr data) = data := by
  simp only [ctrXor, zipXor_length, keystream_length]
  have hm : min data.length (16 * ((data.length + 15) / 16)) = data.length := by
    omega
  rw [hm]
  exact zipXor_zipXor data _ (by rw [keystream_length]; omega)

theorem gcmTag_length (key nonce ct : List Nat) :
    (gcmTag key nonce ct).length = 16 := by
  simp [gcmTag, zipXor_length, natToBeBytes_length, aesEncryptBlock_length]

/-- GCM round-trip at the byte level. -/
theorem gcmDecrypt_gcmEncrypt (key nonce pt : List Nat) :
    gcmDecrypt key nonce (gcmEncrypt key nonce pt) = .ok pt := by
  unfold gcmEncrypt gcmDecrypt
  have hct := ctrXor_length key (inc32 (nonce ++ [0, 0, 0, 1])) pt
  set ct := ctrXor key (inc32 (nonce ++ [0, 0, 0, 1])) pt with hctdef
  have htag := gcmTag_length key nonce ct
  have hlen : (ct ++ gcmTag key nonce ct).length = ct.length + 16 := by
    simp [htag]
  rw [hlen]
  have hnlt : ¬(ct.length + 16 < 16) := by omega
  rw [if_neg hnlt]
  have hdrop : ct.length + 16 - 16 = ct.length := by omega
  rw [hdrop]
  rw [List.take_left' rfl, List.drop_left' rfl]
  rw [if_pos rfl]
  rw [hctdef]
  rw [ctrXor_ctrXor]

end Aes

/-! ## Core error type (`src/core/types/src/error.rs`): third-party error
payloads other than `base64::DecodeError` are opaque. -/

inductive ErrorKind
  | InvalidSignature
  | Env
  | Base64 (e : B64.DecodeError)
  | AesGcm
  | Utf8
  | Rsa
  | RsaPkcs8
  | RsaPkcs8Spki
deriving DecidableEq, Repr

/-- Result of a Rust function that can also panic (through the length
assertion in `GenericArray::from_slice`). -/
inductive RResult (α : Type)
  | ok (a : α)
  | err (e : ErrorKind)
  | panicked
deriving DecidableEq, Repr

instance {ε α : Type} [DecidableEq ε] [DecidableEq α] :
    DecidableEq (Except ε α) := fun a b =>
  match a, b with
  | .error e1, .error e2 =>
    if h : e1 = e2 then isTrue (by rw [h]) else isFalse (by simp [h])
  | .error _, .ok _ => isFalse (by simp)
  | .ok _, .error _ => isFalse (by simp)
  | .ok a1, .ok a2 =>
    if h : a1 = a2 then isTrue (by rw [h]) else isFalse (by simp [h])

/-- A `String` from ASCII byte codes. -/
def asciiStr (l : List Nat) : String := ⟨l.map Char.ofNat⟩

/-! ## `Encrypted` (`src/core/types/src/encrypt.rs`) -/

structure Encrypted where
  nonce : List Nat
  ciphertext : List Nat
deriving DecidableEq, Repr

/-- `impl Into<String> for Encrypted`: `b64(nonce) ":" b64(ciphertext)`. -/
def Encrypted.toCanonicalString (e : Encrypted) : String :=
  asciiStr (B64.encodeUrl e.nonce) ++ ":" ++ asciiStr (B64.encodeUrl e.ciphertext)

/-- `str::split(':')`: split at every colon. -/
def splitColon : List Char → List (List Char)
  | [] => [[]]
  | c :: rest =>
    if c = ':' then [] :: splitColon rest
    else
      match splitColon rest with
      | [] => [[c]]
      | t :: ts => (c :: t) :: ts

/-- `impl TryInto<Encrypted> for String`: collect the parts of
`split(':')`, reject unless there are exactly two, decode each with
`URL_SAFE_NO_PAD`. -/
def stringTryIntoEncrypted (s : String) : Except B64.DecodeError Encrypted :=
  match splitColon s.data with
  | [p1, p2] =>
    match B64.decodeUrl (utf8EncodeChars p1) with
    | .error e => .error e
    | .ok nonce =>
      match B64.decodeUrl (utf8EncodeChars p2) with
      | .error e => .error e
      | .ok ciphertext => .ok { nonce := nonce, ciphertext := ciphertext }
  | _ => .error .InvalidLength

theorem splitColon_ne_nil (l : List Char) : splitColon l ≠ [] := by
  match l with
  | [] => simp [splitColon]
  | c :: rest =>
    unfold splitColon
    by_cases hc : c = ':'
    · simp [hc]
    · simp only [hc, if_false]
      cases splitColon rest <;> simp

theorem splitColon_length (l : List Char) :
    (splitColon l).length = l.count ':' + 1 := by
  induction l with
  | nil => simp [splitColon]
  | cons c rest ih =>
    unfold splitColon
    by_cases hc : c = ':'
    · simp [hc, List.count_cons, ih]
    · simp only [hc, if_false]
      have hne := splitColon_ne_nil rest
      match hsp : splitColon rest with
      | [] => exact absurd hsp hne
      | t :: ts =>
        rw [hsp] at ih
        simp only [List.length_cons] at ih ⊢
        simp [List.count_cons, hc, ih]

theorem splitColon_no_colon (l : List Char) (h : ':' ∉ l) :
    splitColon l = [l] := by
  induction l with
  | nil => simp [splitColon]
  | cons c rest ih =>
    simp only [List.mem_cons, not_or] at h
    have hc : ¬(c = ':') := fun hcc => h.1 (by simp [hcc])
    rw [splitColon, if_neg hc, ih h.2]

theorem splitColon_append (p1 p2 : List Char) (h1 : ':' ∉ p1) (h2 : ':' ∉ p2) :
    splitColon (p1 ++ ':' :: p2) = [p1, p2] := by
  induction p1 with
  | nil => simp [splitColon, splitColon_no_colon p2 h2]
  | cons c rest ih =>
    simp only [List.mem_cons, not_or] at h1
    have hc : ¬(c = ':') := fun hcc => h1.1 (by simp [hcc])
    have ihr := ih h1.2
    simp only [List.cons_append]
    rw [splitColon, if_neg hc, ihr]

/-! ## Cipher keys (`src/core/types/src/encrypt.rs`): `DataEncryptionKey`
and `MasterKey`. Randomness (`generate_key`, `generate_nonce`) is passed
in as the generated value. -/

structure DataEncryptionKey where
  key : List Nat
deriving DecidableEq, Repr

namespace DataEncryptionKey

def generate (randomKey : List Nat) : DataEncryptionKey := ⟨randomKey⟩

/-- `impl FromStr`: decode `URL_SAFE_NO_PAD`, then
`GenericArray::from_slice` — which panics unless the decoded length is
exactly 32. -/
def from_str (s : String) : RResult DataEncryptionKey :=
  match B64.decodeUrl (utf8Encode s) with
  | .error e => .err (.Base64 e)
  | .ok bytes => if bytes.length = 32 then .ok ⟨bytes⟩ else .panicked

/-- `impl ToString`. -/
def to_string (k : DataEncryptionKey) : String := asciiStr (B64.encodeUrl k.key)

/-- `encrypt`: fresh 96-bit nonce, AEAD-encrypt the UTF-8 bytes. -/
def encrypt (k : DataEncryptionKey) (nonce : List Nat) (data : String) :
    Except ErrorKind Encrypted :=
  .ok { nonce := nonce, ciphertext := Aes.gcmEncrypt k.key nonce (utf8Encode data) }

/-- `decrypt`: `GenericArray::from_slice(&encrypted.nonce)` panics unless
the nonce is exactly 12 bytes; then AEAD-decrypt and UTF-8-validate. -/
def decrypt (k : DataEncryptionKey) (encrypted : Encrypted) : RResult String :=
  if encrypted.nonce.length = 12 then
    match Aes.gcmDecrypt k.key encrypted.nonce encrypted.ciphertext with
    | .error _ => .err .AesGcm
    | .ok pt =>
      match utf8DecodeStr pt with
      | none => .err .Utf8
      | some str => .ok str
  else .panicked

end DataEncryptionKey

structure MasterKey where
  key : List Nat
deriving DecidableEq, Repr

namespace MasterKey

/-- `impl FromStr`: decode `URL_SAFE_NO_PAD`, then
`Key::<Aes256Gcm>::from_slice` — panics unless the length is 32. -/
def from_str (s : String) : RResult MasterKey :=
  match B64.decodeUrl (utf8Encode s) with
  | .error e => .err (.Base64 e)
  | .ok bytes => if bytes.length = 32 then .ok ⟨bytes⟩ else .panicked

def encrypt (k : MasterKey) (nonce : List Nat) (data : String) :
    Except ErrorKind Encrypted :=
  .ok { nonce := nonce, ciphertext := Aes.gcmEncrypt k.key nonce (utf8Encode data) }

def decrypt (k : MasterKey) (encrypted : Encrypted) : RResult String :=
  if encrypted.nonce.length = 12 then
    match Aes.gcmDecrypt k.key encrypted.nonce encrypted.ciphertext with
    | .error _ => .err .AesGcm
    | .ok pt =>
      match utf8DecodeStr pt with
      | none => .err .Utf8
      | some str => .ok str
  else .panicked

end MasterKey

/-! ## Serialized JSON values (for the serde `Serialize` impls). -/

inductive JValue
  | str (s : String)
  | num (n : Int)
deriving DecidableEq, Repr

/-- The masking trait (`Maskable` in both `redact.rs` and
`secret.rs`). -/
class Maskable (α : Type) where
  mask : α → String

/-! ## `src/core/types/src/redact.rs`: the wrapper pair used by the
`client` module. `Redacted<T>` and `Masked<T>` both carry
`#[serde(transparent)]`, so their derived `Serialize` writes the inner
value; `Debug`/`Display` are overridden. -/

namespace Redact

def REDACTED : String := "[REDACTED]"

structure Redacted (α : Type) where
  val : α
deriving DecidableEq, Repr

def Redacted.inner_ref {α : Type} (r : Redacted α) : α := r.val

/-- `Debug for Redacted<T>`. -/
def Redacted.debugFmt {α : Type} (_ : Redacted α) : String := REDACTED

/-- `Display for Redacted<T>`. -/
def Redacted.displayFmt {α : Type} (_ : Redacted α) : String := REDACTED

/-- Derived `Serialize` under `#[serde(transparent)]`: the inner value. -/
def Redacted.serialize {α : Type} (ser : α → JValue) (r : Redacted α) : JValue :=
  ser r.val

structure Masked (α : Type) where
  val : α
deriving DecidableEq, Repr

def Masked.inner_ref {α : Type} (m : Masked α) : α := m.val

def Masked.debugFmt {α : Type} [Maskable α] (m : Masked α) : String :=
  Maskable.mask m.val

def Masked.displayFmt {α : Type} [Maskable α] (m : Masked α) : String :=
  Maskable.mask m.val

/-- Derived `Serialize` under `#[serde(transparent)]`: the inner value. -/
def Masked.serialize {α : Type} (ser : α → JValue) (m : Masked α) : JValue :=
  ser m.val

end Redact

/-! ## `src/core/types/src/secret.rs`: the secrecy-backed wrapper pair
used by the `api_key` module and the HTTP planes. Their `Serialize`
impls write the redaction/mask string. -/

namespace Secret

def REDACTED : String := "[REDACTED]"

structure Redacted (α : Type) where
  val : α
deriving DecidableEq, Repr

def Redacted.expose {α : Type} (r : Redacted α) : α := r.val

def Redacted.debugFmt {α : Type} (_ : Redacted α) : String := REDACTED

def Redacted.displayFmt {α : Type} (_ : Redacted α) : String := REDACTED

/-- `impl Serialize for Redacted<T>`: always the literal redaction
string. -/
def Redacted.serialize {α : Type} (_ : Redacted α) : JValue := .str REDACTED

/-- `expose_redacted`: the serializer that reveals the value. -/
def expose_redacted {α : Type} (ser : α → JValue) (r : Redacted α) : JValue :=
  ser r.val

structure Masked (α : Type) where
  val : α
deriving DecidableEq, Repr

def Masked.expose {α : Type} (m : Masked α) : α := m.val

def Masked.debugFmt {α : Type} [Maskable α] (m : Masked α) : String :=
  Maskable.mask m.val

def Masked.displayFmt {α : Type} [Maskable α] (m : Masked α) : String :=
  Maskable.mask m.val

/-- `impl Serialize for Masked<T>`: the mask string. -/
def Masked.serialize {α : Type} [Maskable α] (m : Masked α) : JValue :=
  .str (Maskable.mask m.val)

/-- `expose_masked`: the serializer that reveals the value. -/
def expose_masked {α : Type} (ser : α → JValue) (m : Masked α) : JValue :=
  ser m.val

end Secret

/-! ## UUIDs (crate `uuid`): 16 bytes, lowercase hyphenated rendering,
v5 = SHA-1 of namespace plus name with version/variant bits forced. -/

def hexChar (n : Nat) : Char := Char.ofNat (if n < 10 then 48 + n else 87 + n)

def hexPair (b : Nat) : List Char := [hexChar (b / 16), hexChar (b % 16)]

/-- `Uuid::to_string`: `8-4-4-4-12` lowercase hex. -/
def uuidToString (bytes : List Nat) : String :=
  ⟨hexPair (bytes.getD 0 0) ++ hexPair (bytes.getD 1 0) ++
    hexPair (bytes.getD 2 0) ++ hexPair (bytes.getD 3 0) ++
    '-' :: (hexPair (bytes.getD 4 0) ++ hexPair (bytes.getD 5 0) ++
    '-' :: (hexPair (bytes.getD 6 0) ++ hexPair (bytes.getD 7 0) ++
    '-' :: (hexPair (bytes.getD 8 0) ++ hexPair (bytes.getD 9 0) ++
    '-' :: (hexPair (bytes.getD 10 0) ++ hexPair (bytes.getD 11 0) ++
    hexPair (bytes.getD 12 0) ++ hexPair (bytes.getD 13 0) ++
    hexPair (bytes.getD 14 0) ++ hexPair (bytes.getD 15 0)))))⟩

/-- `Uuid::new_v5`: SHA-1 of namespace bytes then name bytes, truncated
to 16 bytes, with the version forced to 5 and the variant to RFC 4122. -/
def uuidV5 (ns name : List Nat) : List Nat :=
  let h := Hash.sha1 (ns ++ name)
  (List.range 16).map fun i =>
    let b := h.getD i 0
    if i = 6 then b % 16 + 80
    else if i = 8 then b % 64 + 128
    else b

def hexVal (c : Char) : Option Nat :=
  if 48 ≤ c.toNat ∧ c.toNat ≤ 57 then some (c.toNat - 48)
  else if 97 ≤ c.toNat ∧ c.toNat ≤ 102 then some (c.toNat - 87)
  else if 65 ≤ c.toNat ∧ c.toNat ≤ 70 then some (c.toNat - 55)
  else none

def hexPairsToBytes : List Char → Option (List Nat)
  | [] => some []
  | [_] => none
  | c1 :: c2 :: rest =>
    match hexVal c1, hexVal c2, hexPairsToBytes rest with
    | some hi, some lo, some bs => some ((hi * 16 + lo) :: bs)
    | _, _, _ => none

/-- `Uuid::parse_str` on the hyphenated and simple forms. -/
def uuidParse (s : String) : Option (List Nat) :=
  let cs := s.data
  if cs.length = 36 then
    if cs.getD 8 ' ' = '-' ∧ cs.getD 13 ' ' = '-' ∧ cs.getD 18 ' ' = '-' ∧
       cs.getD 23 ' ' = '-' ∧ (cs.filter (fun c => c ≠ '-')).length = 32 then
      hexPairsToBytes (cs.filter (fun c => c ≠ '-'))
    else none
  else if cs.length = 32 then hexPairsToBytes cs
  else none

/-! ## `src/core/types/src/api_key.rs`: `ApiKey([u8; 16])` with the
`"***"` mask, used with the `secret` wrappers. -/

namespace ApiKeyMod

structure ApiKey where
  bytes : List Nat
deriving DecidableEq, Repr

def ApiKey.to_uuid (k : ApiKey) : List Nat := k.bytes

/-- `impl Serialize for ApiKey`: the full UUID string. -/
def ApiKey.serialize (k : ApiKey) : JValue := .str (uuidToString k.bytes)

/-- `impl Maskable for ApiKey` in `api_key.rs`: the first three bytes of
the UUID string (`&s[..3]`, three ASCII characters), then `"***"`. -/
instance : Maskable ApiKey :=
  ⟨fun k => String.mk ((uuidToString k.bytes).data.take 3) ++ "***"⟩

theorem apiKeyMask_def (k : ApiKey) :
    Maskable.mask k = String.mk ((uuidToString k.bytes).data.take 3) ++ "***" :=
  rfl

end ApiKeyMod

/-! ## `src/core/types/src/client.rs`: `ClientId`, `ApiKey(Uuid)` with
the `"[***]"` mask, `Credentials` and its HMAC check. -/

namespace Client

def NAMESPACE_CLIENT : List Nat :=
  [0x05, 0x40, 0xc0, 0xd2, 0x29, 0xab, 0x4a, 0x7e,
   0x99, 0x1e, 0x45, 0xec, 0xe0, 0x0d, 0x92, 0x1a]

structure ClientId where
  uuid : List Nat
deriving DecidableEq, Repr

/-- `impl From<&str> for ClientId`: UUID v5 of the name bytes under the
client namespace. -/
def ClientId.fromName (name : String) : ClientId :=
  ⟨uuidV5 NAMESPACE_CLIENT (utf8Encode name)⟩

structure ApiKey where
  uuid : List Nat
deriving DecidableEq, Repr

/-- `impl Maskable for ApiKey` in `client.rs`: the first three bytes of
the UUID string (`&s[..3]`), then `"[***]"`. -/
instance : Maskable ApiKey :=
  ⟨fun k => String.mk ((uuidToString k.uuid).data.take 3) ++ "[***]"⟩

theorem clientApiKeyMask_def (k : ApiKey) :
    Maskable.mask k = String.mk ((uuidToString k.uuid).data.take 3) ++ "[***]" :=
  rfl

structure Credentials where
  api_key : Redact.Masked ApiKey
  secret : Redact.Redacted String
deriving DecidableEq, Repr

/-- The derived `PartialEq` of `Credentials`: field-wise, through the
derived `PartialEq` of `Masked` and `Redacted` (which compare the inner
values). -/
def Credentials.eqDerived (a b : Credentials) : Prop :=
  a.api_key.val = b.api_key.val ∧ a.secret.val = b.secret.val

instance (a b : Credentials) : Decidable (Credentials.eqDerived a b) := by
  unfold Credentials.eqDerived; infer_instance

/-- `Credentials::generate` with the drawn randomness passed in: the
secret string is the `URL_SAFE_NO_PAD` encoding of 32 random bytes. -/
def Credentials.generate (randomSecret : List Nat) (randomUuid : List Nat) :
    Credentials :=
  { api_key := ⟨⟨randomUuid⟩⟩,
    secret := ⟨asciiStr (B64.encodeUrl randomSecret)⟩ }

/-- The body of `Credentials::check_authentication` at the byte level:
HMAC-SHA256 under the secret bytes, the provided signature decoded with
`STANDARD` base64 (a decode failure propagates with `?` as a `Base64`
error), constant-time comparison failure is `InvalidSignature`.
(`Hmac::new_from_slice` accepts every key length, so its error arm is
unreachable.) -/
def checkAuthBytes (key message signature : List Nat) : Except ErrorKind Unit :=
  match B64.decodeStd signature with
  | .error e => .error (.Base64 e)
  | .ok tag =>
    if tag = Hash.hmacSha256 key message then .ok ()
    else .error .InvalidSignature

/-- `Credentials::check_authentication`. -/
def Credentials.check_authentication (c : Credentials) (message signature : String) :
    Except ErrorKind Unit :=
  checkAuthBytes (utf8Encode c.secret.val) (utf8Encode message)
    (utf8Encode signature)

end Client

/-! ## `src/core/types/src/user.rs`: `UserId`, `SigningKey`, `User`. -/

namespace UserMod

def NAMESPACE_USER : List Nat :=
  [0x7a, 0x1c, 0x3e, 0x5b, 0x8d, 0x2f, 0x4c, 0x9a,
   0x11, 0x22, 0x33, 0x44, 0x55, 0x66, 0x77, 0x88]

structure UserId where
  uuid : List Nat
deriving DecidableEq, Repr

/-- `impl From<&str> for UserId`: UUID v5 of the string bytes under the
user namespace. -/
def UserId.fromString (s : String) : UserId :=
  ⟨uuidV5 NAMESPACE_USER (utf8Encode s)⟩

/-- An RSA private key (crate `rsa`), reduced to the numbers the modelled
operations read. -/
structure RsaPrivateKey where
  n : Nat
  e : Nat
  d : Nat
deriving DecidableEq, Repr

structure SigningKey where
  private_key : RsaPrivateKey
deriving DecidableEq, Repr

/-- Minimal big-endian bytes of a natural number. -/
def minBeBytesAux : Nat → Nat → List Nat
  | 0, _ => []
  | fuel + 1, n => if n = 0 then [] else minBeBytesAux fuel (n / 256) ++ [n % 256]

def minBeBytes (n : Nat) : List Nat :=
  if n = 0 then [0] else minBeBytesAux 600 n

/-- DER definite-length header. -/
def derLen (n : Nat) : List Nat :=
  if n < 128 then [n]
  else if n < 256 then [129, n]
  else [130, n / 256, n % 256]

/-- DER INTEGER (tag 2), with a leading zero when the top bit is set. -/
def derInt (x : Nat) : List Nat :=
  let bs := minBeBytes x
  let bs2 := if 128 ≤ bs.headD 0 then 0 :: bs else bs
  2 :: derLen bs2.length ++ bs2

/-- DER SEQUENCE (tag 0x30). -/
def derSeq (content : List Nat) : List Nat :=
  48 :: derLen content.length ++ content

/-- The SubjectPublicKeyInfo DER of an RSA public key
(`rsaEncryption` OID, NULL parameters, BIT STRING of
`SEQUENCE { n, e }`). -/
def spkiDer (n e : Nat) : List Nat :=
  let pk := derSeq (derInt n ++ derInt e)
  derSeq (derSeq [6, 9, 42, 134, 72, 134, 247, 13, 1, 1, 1, 5, 0] ++
          3 :: derLen (pk.length + 1) ++ 0 :: pk)

/-- Wrap base64 characters into 64-column lines ended by LF. -/
def pemWrap : Nat → List Char → List Char
  | 0, cs => cs ++ ['\n']
  | fuel + 1, cs =>
    if cs.length ≤ 64 then cs ++ ['\n']
    else cs.take 64 ++ '\n' :: pemWrap fuel (cs.drop 64)

/-- `to_public_key_pem(LineEnding::LF)`. -/
def publicKeyPemStr (sk : SigningKey) : String :=
  "-----BEGIN PUBLIC KEY-----\n" ++
  String.mk (pemWrap ((spkiDer sk.private_key.n sk.private_key.e).length)
    ((B64.encodeStd (spkiDer sk.private_key.n sk.private_key.e)).map Char.ofNat)) ++
  "-----END PUBLIC KEY-----\n"

/-- `SigningKey::public_key_pem` (the `rsa` crate's PEM export of a
well-formed key does not fail). -/
def SigningKey.public_key_pem (sk : SigningKey) : Except ErrorKind String :=
  .ok (publicKeyPemStr sk)

structure User where
  id : UserId
  signing_key : SigningKey
deriving DecidableEq, Repr

/-- `User::new` with the generated RSA key passed in: the id is the UUID
v5 of the public-key PEM. -/
def User.new (sk : SigningKey) : Except ErrorKind User :=
  match sk.public_key_pem with
  | .error e => .error e
  | .ok pem => .ok { id := UserId.fromString pem, signing_key := sk }

end UserMod

/-! ## Wallet authentication middleware
(`src/wallet/src/middleware/auth.rs`). -/

namespace Auth

/-- The request data the middleware reads: the three headers (as strings
when present and readable), method, path, raw query string, and the
buffered body bytes. -/
structure RequestParts where
  xTimestamp : Option String
  xApiKey : Option String
  xSignature : Option String
  method : String
  path : String
  queryString : String
  bodyBytes : List Nat
deriving DecidableEq, Repr

/-- `str::parse::<u64>`: optional leading `+`, one or more ASCII digits,
value below `2^64`. -/
def parseU64 (s : String) : Option Nat :=
  let cs := match s.data with
    | '+' :: rest => rest
    | cs => cs
  if cs = [] then none
  else if cs.all (fun c => decide (48 ≤ c.toNat) && decide (c.toNat ≤ 57)) then
    let v := cs.foldl (fun acc c => acc * 10 + (c.toNat - 48)) 0
    if v < 2 ^ 64 then some v else none
  else none

structure AuthData where
  api_key : Secret.Masked ApiKeyMod.ApiKey
  signature : String
  timestamp : Nat
  http_method : String
  request_path : String
  request_query : String
  request_body : Option String
deriving DecidableEq, Repr

/-- `AuthData::from_request`: parse the three headers (any failure is a
rejection), keep method/path/query, buffer the body and keep
`String::from_utf8(bytes).ok()`. -/
def AuthData.from_request (r : RequestParts) : Option AuthData :=
  match r.xTimestamp.bind parseU64 with
  | none => none
  | some ts =>
    match r.xApiKey.bind uuidParse with
    | none => none
    | some keyBytes =>
      match r.xSignature with
      | none => none
      | some sig =>
        some { api_key := ⟨⟨keyBytes⟩⟩
               signature := sig
               timestamp := ts
               http_method := r.method
               request_path := r.path
               request_query := r.queryString
               request_body := utf8DecodeStr r.bodyBytes }

/-- The canonical message built in `AuthData::check_authentication`:
`format!("{}{}{}{}{}", timestamp, method, path, query, body)` with a
missing body read as the empty string. -/
def AuthData.message (ad : AuthData) : String :=
  toString ad.timestamp ++ ad.http_method ++ ad.request_path ++
    ad.request_query ++ ad.request_body.getD ""

/-- The tail of `AuthData::check_authentication` once the client's
credentials are loaded and decrypted. -/
def AuthData.check_authentication (ad : AuthData) (credentials : Client.Credentials) :
    Except ErrorKind Unit :=
  credentials.check_authentication (AuthData.message ad) ad.signature

end Auth

/-! ## Claim theorems -/

/-- C3 (counterexample): the `redact`-module `Redacted<T>` is
`#[serde(transparent)]`, so its JSON serialization is the inner value,
not `"[REDACTED]"`: wrapping the string `"hunter2"` serializes to the
JSON string `"hunter2"`. -/
theorem c3_counterexample :
    Redact.Redacted.serialize JValue.str ⟨"hunter2"⟩ = JValue.str "hunter2" ∧
    JValue.str "hunter2" ≠ JValue.str "[REDACTED]" := by
  exact ⟨rfl, by decide⟩

/-- C3 (amended): for every type `T` and value `v`, Debug and Display of
both `Redacted` wrappers render `"[REDACTED]"`, and `expose`/`inner_ref`
return `v`; JSON serialization yields `"[REDACTED]"` for the
`secret`-module `Redacted`, while the `redact`-module `Redacted` is
`serde(transparent)` and serializes as the inner value. -/
theorem c3_redaction_laws {α : Type} (ser : α → JValue) (v : α) :
    Redact.Redacted.debugFmt (⟨v⟩ : Redact.Redacted α) = "[REDACTED]" ∧
    Redact.Redacted.displayFmt (⟨v⟩ : Redact.Redacted α) = "[REDACTED]" ∧
    Secret.Redacted.debugFmt (⟨v⟩ : Secret.Redacted α) = "[REDACTED]" ∧
    Secret.Redacted.displayFmt (⟨v⟩ : Secret.Redacted α) = "[REDACTED]" ∧
    Secret.Redacted.serialize (⟨v⟩ : Secret.Redacted α) = JValue.str "[REDACTED]" ∧
    Redact.Redacted.serialize ser ⟨v⟩ = ser v ∧
    Redact.Redacted.inner_ref ⟨v⟩ = v ∧
    Secret.Redacted.expose ⟨v⟩ = v :=
  ⟨rfl, rfl, rfl, rfl, rfl, rfl, rfl, rfl⟩

/-- C7 (counterexample): the `client`-module `Maskable` impl renders the
all-zero API key as `"000[***]"`, not `"000***"` (first three characters
followed by exactly `"***"`), so the masking law fails for the cited
`client`-module wrapper. -/
theorem c7_counterexample :
    Redact.Masked.displayFmt
        (⟨⟨List.replicate 16 0⟩⟩ : Redact.Masked Client.ApiKey) = "000[***]" ∧
    ("000[***]" : String) ≠ "000" ++ "***" := by
  exact ⟨by decide, by decide⟩

theorem hexChar_mem_hexDigits : ∀ n, n < 16 →
    hexChar n ∈ ("0123456789abcdef" : String).data := by decide

/-- C7 (amended): the `api_key`-module `Masked<ApiKey>` (the one used by
the HTTP planes) serializes and displays as the first three UUID
characters (lowercase hex digits) followed by `"***"`; the legacy
`client`-module impl instead produces the prefix followed by `"[***]"`. -/
theorem c7_masking (k : List Nat) (hlen : k.length = 16)
    (hb : ∀ b ∈ k, b < 256) :
    Secret.Masked.serialize (⟨⟨k⟩⟩ : Secret.Masked ApiKeyMod.ApiKey) =
      JValue.str (String.mk ((uuidToString k).data.take 3) ++ "***") ∧
    Secret.Masked.displayFmt (⟨⟨k⟩⟩ : Secret.Masked ApiKeyMod.ApiKey) =
      String.mk ((uuidToString k).data.take 3) ++ "***" ∧
    (∀ c ∈ (uuidToString k).data.take 3, c ∈ ("0123456789abcdef" : String).data) ∧
    Redact.Masked.displayFmt (⟨⟨k⟩⟩ : Redact.Masked Client.ApiKey) =
      String.mk ((uuidToString k).data.take 3) ++ "[***]" := by
  refine ⟨rfl, rfl, ?_, rfl⟩
  have hb0 : k.getD 0 0 < 256 := by
    have : k.getD 0 0 ∈ k := by
      have h0 : 0 < k.length := by omega
      rw [List.getD_eq_getElem _ _ h0]
      exact List.getElem_mem h0
    exact hb _ this
  have hb1 : k.getD 1 0 < 256 := by
    have : k.getD 1 0 ∈ k := by
      have h1 : 1 < k.length := by omega
      rw [List.getD_eq_getElem _ _ h1]
      exact List.getElem_mem h1
    exact hb _ this
  intro c hc
  have hdata : (uuidToString k).data.take 3 =
      [hexChar (k.getD 0 0 / 16), hexChar (k.getD 0 0 % 16),
       hexChar (k.getD 1 0 / 16)] := by
    simp [uuidToString, hexPair]
  rw [hdata] at hc
  simp only [List.mem_cons, List.not_mem_nil, or_false] at hc
  rcases hc with rfl | rfl | rfl
  · exact hexChar_mem_hexDigits _ (by omega)
  · exact hexChar_mem_hexDigits _ (by omega)
  · exact hexChar_mem_hexDigits _ (by omega)

/-- C7 (witness): the amended masking law at a concrete key. -/
theorem c7_witness :
    Secret.Masked.serialize
        (⟨⟨List.replicate 16 0⟩⟩ : Secret.Masked ApiKeyMod.ApiKey) =
      JValue.str (String.mk ((uuidToString (List.replicate 16 0)).data.take 3) ++
        "***") ∧
    (List.replicate 16 0).length = 16 :=
  ⟨(c7_masking (List.replicate 16 0) (by decide) (by decide)).1, by decide⟩

/-- C8 (counterexample): two `Credentials` with the same `api_key` but
different secrets do not compare equal under the derived `PartialEq`,
contradicting equality by `api_key` only. -/
theorem c8_counterexample :
    (⟨⟨⟨List.replicate 16 0⟩⟩, ⟨"a"⟩⟩ : Client.Credentials).api_key =
      (⟨⟨⟨List.replicate 16 0⟩⟩, ⟨"b"⟩⟩ : Client.Credentials).api_key ∧
    ¬ Client.Credentials.eqDerived
        ⟨⟨⟨List.replicate 16 0⟩⟩, ⟨"a"⟩⟩ ⟨⟨⟨List.replicate 16 0⟩⟩, ⟨"b"⟩⟩ := by
  exact ⟨rfl, by decide⟩

/-- C8 (amended): the derived equality of `Credentials` compares both
fields — it holds exactly when the API keys and the secrets both
agree. -/
theorem c8_eq_by_both_fields (a b : Client.Credentials) :
    Client.Credentials.eqDerived a b ↔
      a.api_key = b.api_key ∧ a.secret = b.secret := by
  rcases a with ⟨⟨⟨ua⟩⟩, ⟨sa⟩⟩
  rcases b with ⟨⟨⟨ub⟩⟩, ⟨sb⟩⟩
  unfold Client.Credentials.eqDerived
  simp

/-- C5 (counterexample): key parsing does not return an error on a wrong
decoded length — it panics. `""` decodes to zero bytes and
`DataEncryptionKey::from_str` hits the `GenericArray::from_slice` length
assertion; `"AA"` decodes to one byte and `MasterKey::from_str` panics
the same way. (`ErrorKind` has no `InvalidKeyLength` variant at all.) -/
theorem c5_counterexample :
    DataEncryptionKey.from_str "" = .panicked ∧
    MasterKey.from_str "AA" = .panicked := by
  exact ⟨by decide, by decide⟩

/-- C5 (amended): parsing a string into an AES-256 key returns the
`Base64` error exactly when `URL_SAFE_NO_PAD` decoding fails; when
decoding succeeds, a decoded length of 32 yields the key, and any other
decoded length panics (the `GenericArray::from_slice` length assertion)
instead of returning an error — `ErrorKind` has no `InvalidKeyLength`
variant. -/
theorem c5_from_str_spec (s : String) :
    (∀ e, B64.decodeUrl (utf8Encode s) = .error e →
      DataEncryptionKey.from_str s = .err (.Base64 e) ∧
      MasterKey.from_str s = .err (.Base64 e)) ∧
    (∀ bytes, B64.decodeUrl (utf8Encode s) = .ok bytes → bytes.length ≠ 32 →
      DataEncryptionKey.from_str s = .panicked ∧
      MasterKey.from_str s = .panicked) ∧
    (∀ bytes, B64.decodeUrl (utf8Encode s) = .ok bytes → bytes.length = 32 →
      DataEncryptionKey.from_str s = .ok ⟨bytes⟩ ∧
      MasterKey.from_str s = .ok ⟨bytes⟩) := by
  refine ⟨?_, ?_, ?_⟩
  · intro e h
    constructor <;> simp [DataEncryptionKey.from_str, MasterKey.from_str, h]
  · intro bytes h hne
    constructor <;> simp [DataEncryptionKey.from_str, MasterKey.from_str, h, hne]
  · intro bytes h heq
    constructor <;> simp [DataEncryptionKey.from_str, MasterKey.from_str, h, heq]

/-- C5 (witness): the amended parsing contract at concrete inputs: an
invalid base64 string gives the `Base64` error, and a valid one of the
wrong decoded length panics. -/
theorem c5_witness :
    DataEncryptionKey.from_str "!!" = .err (.Base64 (.InvalidByte 0 33)) ∧
    MasterKey.from_str "" = .panicked :=
  ⟨((c5_from_str_spec "!!").1 (.InvalidByte 0 33) (by decide)).1,
   ((c5_from_str_spec "").2.1 [] (by decide) (by decide)).2⟩

/-- C6 (counterexample): the string `":"` splits into two empty tokens,
passes the `len == 2` arity check, and both empty tokens decode
successfully, so parsing yields `Ok` with empty nonce and ciphertext
rather than the claimed `Base64(InvalidLength)` rejection. -/
theorem c6_counterexample :
    stringTryIntoEncrypted ":" = .ok ⟨[], []⟩ := by decide

/-- C6 (amended): parsing splits on every `':'` and fails with
`Base64(InvalidLength)` whenever the number of colons differs from one
(zero colons or more than one); with exactly one colon the two tokens —
empty tokens allowed — are each decoded with `URL_SAFE_NO_PAD` and
decode errors are propagated. -/
theorem c6_parse_spec (s : String) :
    (s.data.count ':' ≠ 1 → stringTryIntoEncrypted s = .error .InvalidLength) ∧
    (∀ p1 p2, s.data = p1 ++ ':' :: p2 → ':' ∉ p1 → ':' ∉ p2 →
      stringTryIntoEncrypted s =
        match B64.decodeUrl (utf8EncodeChars p1) with
        | .error e => .error e
        | .ok nonce =>
          match B64.decodeUrl (utf8EncodeChars p2) with
          | .error e => .error e
          | .ok ciphertext => .ok ⟨nonce, ciphertext⟩) := by
  constructor
  · intro hcount
    have hlen : (splitColon s.data).length ≠ 2 := by
      rw [splitColon_length]; omega
    unfold stringTryIntoEncrypted
    match hsp : splitColon s.data with
    | [] => rfl
    | [_] => rfl
    | [p1, p2] => rw [hsp] at hlen; simp at hlen
    | _ :: _ :: _ :: _ => rfl
  · intro p1 p2 hs h1 h2
    unfold stringTryIntoEncrypted
    rw [hs, splitColon_append p1 p2 h1 h2]

/-- C6 (witness): the amended parsing contract at concrete inputs: two
colons are rejected with `InvalidLength`, and `"AA:AA"` decodes to a
one-byte nonce and one-byte ciphertext. -/
theorem c6_witness :
    stringTryIntoEncrypted "a:b:c" = .error .InvalidLength ∧
    stringTryIntoEncrypted "AA:AA" = .ok ⟨[0], [0]⟩ :=
  ⟨(c6_parse_spec "a:b:c").1 (by decide),
   ((c6_parse_spec "AA:AA").2 ['A', 'A'] ['A', 'A'] (by decide) (by decide)
      (by decide)).trans (by decide)⟩

/-- C10: decryption is not total over `Encrypted`: whenever the stored
nonce is not exactly 12 bytes, both `DataEncryptionKey::decrypt` and
`MasterKey::decrypt` panic (the `GenericArray::from_slice` length
assertion) instead of returning an error — while the canonical-string
parser accepts nonce tokens of any decoded length, e.g. `"AA:AA"`
parses to an `Encrypted` whose nonce is a single byte. -/
theorem c10_decrypt_panics :
    (∀ (k : DataEncryptionKey) (e : Encrypted), e.nonce.length ≠ 12 →
      DataEncryptionKey.decrypt k e = .panicked) ∧
    (∀ (mk : MasterKey) (e : Encrypted), e.nonce.length ≠ 12 →
      MasterKey.decrypt mk e = .panicked) ∧
    stringTryIntoEncrypted "AA:AA" = .ok ⟨[0], [0]⟩ ∧
    (1 : Nat) ≠ 12 := by
  refine ⟨?_, ?_, by decide, by decide⟩
  · intro k e h
    unfold DataEncryptionKey.decrypt
    rw [if_neg h]
  · intro mk e h
    unfold MasterKey.decrypt
    rw [if_neg h]

/-- C10 (witness): decrypting the parsed value of `"AA:AA"` (one-byte
nonce) panics under both key types. -/
theorem c10_witness :
    DataEncryptionKey.decrypt ⟨List.replicate 32 0⟩ ⟨[0], [0]⟩ = .panicked ∧
    MasterKey.decrypt ⟨List.replicate 32 0⟩ ⟨[0], [0]⟩ = .panicked :=
  ⟨c10_decrypt_panics.1 ⟨List.replicate 32 0⟩ ⟨[0], [0]⟩ (by decide),
   c10_decrypt_panics.2.1 ⟨List.replicate 32 0⟩ ⟨[0], [0]⟩ (by decide)⟩

/-- C2: for every request accepted by `AuthData::from_request`, the
canonical message over which the HMAC is verified is exactly the
concatenation, in this order with no separators, of the decimal
timestamp, the HTTP method, the request path, the raw query string, and
the request body — where the body contributes the decoded UTF-8 string
when the buffered bytes are valid UTF-8 (the empty body decoding to the
empty string) and the empty string otherwise. -/
theorem c2_canonical_message (r : Auth.RequestParts) (ad : Auth.AuthData)
    (h : Auth.AuthData.from_request r = some ad) :
    ad.http_method = r.method ∧ ad.request_path = r.path ∧
    ad.request_query = r.queryString ∧
    Auth.AuthData.message ad =
      toString ad.timestamp ++ r.method ++ r.path ++ r.queryString ++
        (utf8DecodeStr r.bodyBytes).getD "" := by
  unfold Auth.AuthData.from_request at h
  cases h1 : r.xTimestamp.bind Auth.parseU64 with
  | none => rw [h1] at h; exact absurd h (by simp)
  | some ts =>
    rw [h1] at h
    cases h2 : r.xApiKey.bind uuidParse with
    | none => rw [h2] at h; exact absurd h (by simp)
    | some keyBytes =>
      rw [h2] at h
      cases h3 : r.xSignature with
      | none => rw [h3] at h; exact absurd h (by simp)
      | some sig =>
        rw [h3] at h
        simp only [Option.some.injEq] at h
        subst h
        refine ⟨rfl, rfl, rfl, ?_⟩
        rfl

/-- C2 (witness): a concrete request with a non-UTF-8 body (`[0xFF]`):
the body contributes the empty string to the canonical message. -/
theorem c2_witness :
    Auth.AuthData.from_request
        ⟨some "1700000000", some "00000000-0000-0000-0000-000000000000",
         some "sig", "POST", "/wallet/register", "", [255]⟩ =
      some ⟨⟨⟨List.replicate 16 0⟩⟩, "sig", 1700000000, "POST",
            "/wallet/register", "", none⟩ ∧
    Auth.AuthData.message
        ⟨⟨⟨List.replicate 16 0⟩⟩, "sig", 1700000000, "POST",
         "/wallet/register", "", none⟩ =
      toString (1700000000 : Nat) ++ "POST" ++ "/wallet/register" ++ "" ++
        (utf8DecodeStr [255]).getD "" :=
  ⟨by decide,
   (c2_canonical_message
      ⟨some "1700000000", some "00000000-0000-0000-0000-000000000000",
       some "sig", "POST", "/wallet/register", "", [255]⟩
      ⟨⟨⟨List.replicate 16 0⟩⟩, "sig", 1700000000, "POST",
       "/wallet/register", "", none⟩ (by decide)).2.2.2⟩

/-- C9: `ClientId::from(name)` and `UserId::from(pem)` are deterministic
pure functions of the input bytes — the UUID v5 of those bytes under the
fixed client/user namespaces — and `User::new` assigns
`id = UserId::from(public_key_pem)` at creation. -/
theorem c9_id_determinism :
    (∀ n1 n2 : String, utf8Encode n1 = utf8Encode n2 →
      Client.ClientId.fromName n1 = Client.ClientId.fromName n2) ∧
    (∀ name : String, Client.ClientId.fromName name =
      ⟨uuidV5 Client.NAMESPACE_CLIENT (utf8Encode name)⟩) ∧
    (∀ p1 p2 : String, utf8Encode p1 = utf8Encode p2 →
      UserMod.UserId.fromString p1 = UserMod.UserId.fromString p2) ∧
    (∀ s : String, UserMod.UserId.fromString s =
      ⟨uuidV5 UserMod.NAMESPACE_USER (utf8Encode s)⟩) ∧
    (∀ (sk : UserMod.SigningKey) (pem : String),
      UserMod.SigningKey.public_key_pem sk = .ok pem →
      UserMod.User.new sk = .ok ⟨UserMod.UserId.fromString pem, sk⟩) := by
  refine ⟨?_, fun _ => rfl, ?_, fun _ => rfl, ?_⟩
  · intro n1 n2 h
    unfold Client.ClientId.fromName
    rw [h]
  · intro p1 p2 h
    unfold UserMod.UserId.fromString
    rw [h]
  · intro sk pem h
    unfold UserMod.User.new
    rw [h]

/-- C9 (witness): the determinism laws applied at the name `"acme"` and a
concrete RSA key. -/
theorem c9_witness :
    Client.ClientId.fromName "acme" = Client.ClientId.fromName "acme" ∧
    UserMod.User.new ⟨⟨3233, 17, 413⟩⟩ =
      .ok ⟨UserMod.UserId.fromString (UserMod.publicKeyPemStr ⟨⟨3233, 17, 413⟩⟩),
           ⟨⟨3233, 17, 413⟩⟩⟩ :=
  ⟨c9_id_determinism.1 "acme" "acme" rfl,
   c9_id_determinism.2.2.2.2 ⟨⟨3233, 17, 413⟩⟩
     (UserMod.publicKeyPemStr ⟨⟨3233, 17, 413⟩⟩) rfl⟩

/-- C4: AES-256-GCM round-trip: for every data key, every 12-byte nonce
and every string `m`, decrypting the encryption of `m` returns exactly
`m` (`k.decrypt(k.encrypt(m)) == m`). -/
theorem c4_encrypt_decrypt (k : DataEncryptionKey) (nonce : List Nat)
    (m : String) (enc : Encrypted) (hn : nonce.length = 12)
    (henc : DataEncryptionKey.encrypt k nonce m = .ok enc) :
    DataEncryptionKey.decrypt k enc = .ok m := by
  unfold DataEncryptionKey.encrypt at henc
  simp only [Except.ok.injEq] at henc
  subst henc
  unfold DataEncryptionKey.decrypt
  simp only [hn, if_true, if_pos rfl]
  rw [Aes.gcmDecrypt_gcmEncrypt]
  simp only [utf8DecodeStr_encode]

/-- C4 (witness): the round-trip at a concrete key, nonce and message. -/
theorem c4_witness :
    DataEncryptionKey.decrypt ⟨List.replicate 32 0⟩
      ⟨List.replicate 12 0,
       Aes.gcmEncrypt (List.replicate 32 0) (List.replicate 12 0)
         (utf8Encode "A")⟩ = .ok "A" :=
  c4_encrypt_decrypt ⟨List.replicate 32 0⟩ (List.replicate 12 0) "A"
    ⟨List.replicate 12 0,
     Aes.gcmEncrypt (List.replicate 32 0) (List.replicate 12 0)
       (utf8Encode "A")⟩ (by decide) rfl

theorem flipBit_ne (l : List Nat) (i : Nat) (h : i / 8 < l.length) :
    flipBit l i ≠ l := by
  intro heq
  have h2 : (flipBit l i).getD (i / 8) 0 = l.getD (i / 8) 0 := by rw [heq]
  have hset : i / 8 < (l.set (i / 8) (l.getD (i / 8) 0 ^^^ (1 <<< (i % 8)))).length := by
    simpa using h
  have h3 : (flipBit l i).getD (i / 8) 0 =
      l.getD (i / 8) 0 ^^^ (1 <<< (i % 8)) := by
    unfold flipBit
    rw [List.getD_eq_getElem _ _ hset]
    exact List.getElem_set_self hset
  have hxa : l.getD (i / 8) 0 ^^^ (1 <<< (i % 8)) = l.getD (i / 8) 0 := by
    rw [← h3, h2]
  have hzero : (1 <<< (i % 8)) = 0 := by
    have := congrArg (fun t => l.getD (i / 8) 0 ^^^ t) hxa
    simpa [Nat.xor_cancel_left, Nat.xor_self] using this
  rw [Nat.one_shiftLeft] at hzero
  have hpos : 0 < 2 ^ (i % 8) := Nat.pos_pow_of_pos _ (by omega)
  omega

/-- A failed authentication outcome of `check_authentication`:
`InvalidSignature` or a propagated `Base64` decode error. -/
def authRejected (r : Except ErrorKind Unit) : Prop :=
  match r with
  | .error .InvalidSignature => True
  | .error (.Base64 _) => True
  | _ => False

/-- Flipping the top bit of the first signature byte always breaks the
`STANDARD` base64 decoding, so `check_authentication` fails with the
propagated `Base64` error — before the HMAC is ever compared. -/
theorem checkAuthBytes_flipTop (key msg : List Nat) :
    ∃ e, Client.checkAuthBytes key msg
        (flipBit (B64.encodeStd (Hash.hmacSha256 key msg)) 7) =
      .error (.Base64 e) := by
  have hlen := Hash.hmacSha256_length key msg
  have hlt := Hash.hmacSha256_lt key msg
  rcases htm : Hash.hmacSha256 key msg with _ | ⟨t1, _ | ⟨t2, _ | ⟨t3, rest⟩⟩⟩
  · rw [htm] at hlen; simp at hlen
  · rw [htm] at hlen; simp at hlen
  · rw [htm] at hlen; simp at hlen
  · rw [htm] at hlen hlt
    have ht1 : t1 < 256 := hlt _ (by simp)
    have hrest : rest ≠ [] := by
      intro hr
      rw [hr] at hlen
      simp at hlen
    have hne := B64.encodeAux_ne_nil B64.stdChars true rest hrest
    have hni : (B64.encodeAux B64.stdChars true rest).isEmpty = false := by
      simpa [List.isEmpty_iff] using hne
    have hflip : flipBit (B64.encodeStd (t1 :: t2 :: t3 :: rest)) 7 =
        (B64.encChar B64.stdChars (t1 / 4) ^^^ (1 <<< 7)) ::
          B64.encChar B64.stdChars (t1 % 4 * 16 + t2 / 16) ::
          B64.encChar B64.stdChars (t2 % 16 * 4 + t3 / 64) ::
          B64.encChar B64.stdChars (t3 % 64) ::
          B64.encodeAux B64.stdChars true rest := by
      simp [B64.encodeStd, B64.encodeAux, flipBit]
    rw [hflip]
    have hdec := B64.std_decChar_flip_top (t1 / 4) (by omega)
    refine ⟨.InvalidByte 0 (B64.encChar B64.stdChars (t1 / 4) ^^^ (1 <<< 7)), ?_⟩
    unfold Client.checkAuthBytes B64.decodeStd
    rw [B64.decodeStdAux]
    simp only [hni, Bool.false_eq_true, if_false, hdec]

/-- C1 (counterexample): with secret byte `[115]` and message `[109]`,
flipping bit 7 of the valid signature makes `check_authentication` fail
with a `Base64` error — neither `Ok` nor the claimed
`InvalidSignature`. -/
theorem c1_counterexample :
    Client.checkAuthBytes [115] [109]
        (flipBit (B64.encodeStd (Hash.hmacSha256 [115] [109])) 7) ≠
      .error .InvalidSignature ∧
    Client.checkAuthBytes [115] [109]
        (flipBit (B64.encodeStd (Hash.hmacSha256 [115] [109])) 7) ≠
      .ok () := by
  obtain ⟨e, he⟩ := checkAuthBytes_flipTop [115] [109]
  rw [he]
  exact ⟨by simp, by simp⟩

/-- C1 (amended): for every secret and message, the STANDARD-base64
encoding of the HMAC-SHA256 tag is accepted by `check_authentication`;
flipping any bit of that signature makes it fail — with
`InvalidSignature` when the flipped string still decodes, and with the
propagated `Base64` error when decoding fails; and any message whose
HMAC differs from the decoded tag fails with `InvalidSignature`. -/
theorem c1_hmac_auth (key msg : List Nat) :
    Client.checkAuthBytes key msg
      (B64.encodeStd (Hash.hmacSha256 key msg)) = .ok () ∧
    (∀ i, i < 8 * (B64.encodeStd (Hash.hmacSha256 key msg)).length →
      authRejected (Client.checkAuthBytes key msg
        (flipBit (B64.encodeStd (Hash.hmacSha256 key msg)) i))) ∧
    (∀ msg2, Client.checkAuthBytes key msg2
        (B64.encodeStd (Hash.hmacSha256 key msg)) =
      if Hash.hmacSha256 key msg = Hash.hmacSha256 key msg2 then .ok ()
      else .error .InvalidSignature) := by
  have hround := B64.decodeStd_encodeStd _ (Hash.hmacSha256_lt key msg)
  refine ⟨?_, ?_, ?_⟩
  · simp [Client.checkAuthBytes, hround]
  · intro i hi
    cases hd : B64.decodeStd (flipBit (B64.encodeStd (Hash.hmacSha256 key msg)) i) with
    | error e =>
      simp [Client.checkAuthBytes, hd, authRejected]
    | ok b =>
      have hcan := B64.encodeStd_of_decodeStd hd
      have hbne : ¬(b = Hash.hmacSha256 key msg) := by
        intro hbe
        rw [hbe] at hcan
        exact flipBit_ne _ i (by omega) hcan.symm
      simp [Client.checkAuthBytes, hd, hbne, authRejected]
  · intro msg2
    simp [Client.checkAuthBytes, hround]

attribute [irreducible] authRejected

set_option maxRecDepth 8000 in
/-- C1 (witness): the amended law at the concrete secret `[115]` and
message `[109]`: the genuine signature is accepted, the bit-7 flip is
rejected, and the code's comparison against a modified message reduces
to the HMAC equality test. -/
theorem c1_witness :
    Client.checkAuthBytes [115] [109]
      (B64.encodeStd (Hash.hmacSha256 [115] [109])) = .ok () ∧
    authRejected (Client.checkAuthBytes [115] [109]
      (flipBit (B64.encodeStd (Hash.hmacSha256 [115] [109])) 0)) ∧
    Client.checkAuthBytes [115] [110]
        (B64.encodeStd (Hash.hmacSha256 [115] [109])) =
      if Hash.hmacSha256 [115] [109] = Hash.hmacSha256 [115] [110] then .ok ()
      else .error .InvalidSignature :=
  ⟨(c1_hmac_auth [115] [109]).1,
   (c1_hmac_auth [115] [109]).2.1 0
     (by
       have h1 := Hash.hmacSha256_length [115] [109]
       have h2 : Hash.hmacSha256 [115] [109] ≠ [] := by
         intro h
         rw [h] at h1
         simp at h1
       have h3 := B64.encodeAux_ne_nil B64.stdChars true _ h2
       have h4 : 0 < (B64.encodeStd (Hash.hmacSha256 [115] [109])).length :=
         List.length_pos.mpr h3
       omega),
   (c1_hmac_auth [115] [109]).2.2 [110]⟩

end Pontoon
